import Mathlib

/-!
Verification of the layout-descriptor model and cycle-safe traversal of
`abi_stable/src/abi_stability/type_layout.rs`.

The data model is translated type-by-type from the Rust source.  Machine
integers (`usize`, `u32`, `u64`) are modelled as `Nat`, signed ones
(`isize`, `i64`) as `Int`; no arithmetic on them overflows anywhere in the
translated code.  `&'static str` (`StaticStr`) is modelled as `String` and
`StaticSlice<T>` as `List T` compared element-wise, mirroring Rust slice
equality.  The lazily resolved `GetAbiInfo` function pointer of a field is
modelled as an address (`Nat`) resolved through an environment of `AbiInfo`
nodes, which is what makes cyclic descriptor graphs representable.

The thread-local `RecursionState` (recursion_depth / visited_nodes /
visited set of `AbiInfo` addresses) of `TLField::recursive` is threaded
explicitly through the equality and Debug computations.  Both are defined
as fuel-indexed interpreters (`eqRun`, `dbgRun`) over a task type; running
out of fuel returns `none`, so termination of the Rust code on an input is
`∃ fuel, run = some …`.
-/

/-- Interned static string (`StaticStr` from `std_types`, not under `src/`).
Modelled from the spec: "interned static strings … used as leaf values";
compared by content. -/
abbrev StaticStr := String

/-- Address identifying a `&'static AbiInfo` (pointer identity used by the
visited set of the traversal). -/
abbrev Addr := Nat

/-- Modelled from the spec: `VersionStrings` (`version` module, not under
`src/`): the defining package's version as three strings, as constructed in
`TypeLayout::from_std_lib_phantom`. -/
structure VersionStrings where
  major : StaticStr
  minor : StaticStr
  patch : StaticStr
deriving DecidableEq, Repr

/-- Modelled from the spec: `CmpIgnored<T>` (`ignored_wrapper` module, not
under `src/`): a wrapper whose comparisons always succeed — "source location
(diagnostics only, excluded from equality)". -/
structure CmpIgnored (α : Type) where
  value : α
deriving DecidableEq, Repr

/-- Comparison of `CmpIgnored` values: always true, ignoring the contents. -/
def CmpIgnored.ceq {α : Type} (_a _b : CmpIgnored α) : Bool := true

/-- Modelled from the spec: `Tag` (`tagging` module, not under `src/`): an
opaque extensible metadata tag; only its decidable equality and the `null`
constructor are needed here. -/
structure Tag where
  code : Nat
deriving DecidableEq, Repr

def Tag.null : Tag := ⟨0⟩

/-- Modelled from the spec: `ModReflMode` (`reflection` module, not under
`src/`): the reflection mode stored in a layout; `Module` is the default used
by the constructors in `src/`. -/
inductive ModReflMode where
  | Module
  | DelegateDeref
  | Ignored
deriving DecidableEq, Repr

/-- Modelled from the spec: `FieldAccessibility` (`prefix_type` module, not
under `src/`): the per-suffix-field accessibility record of a prefix type,
compared by decidable equality. -/
structure FieldAccessibility where
  bits : Nat
deriving DecidableEq, Repr

/-- Modelled from the spec: `IsConditional` (`prefix_type` module, not under
`src/`): the conditional-field flag of a prefix-type field. -/
structure IsConditional where
  is_conditional : Bool
deriving DecidableEq, Repr

/-- `LifetimeIndex`: which lifetime is referenced by a field
(`type_layout.rs` lines 67-74). -/
inductive LifetimeIndex where
  | Static
  | Param (n : Nat)
deriving DecidableEq, Repr

/-- `RustPrimitive`: what primitive type a `FullType` is
(`type_layout.rs` lines 260-269). -/
inductive RustPrimitive where
  | Reference
  | MutReference
  | ConstPtr
  | MutPtr
  | Array
deriving DecidableEq, Repr

/-- `DiscriminantRepr`: how the discriminant of an enum is represented
(`type_layout.rs` lines 208-227). -/
inductive DiscriminantRepr where
  | U8 | I8 | U16 | I16 | U32 | I32 | U64 | I64 | U128 | I128 | Usize | Isize
deriving DecidableEq, Repr

/-- `ReprAttr` (`type_layout.rs` lines 199-206). -/
inductive ReprAttr where
  | C (r : Option DiscriminantRepr)
  | Transparent
  | Int (r : DiscriminantRepr)
deriving DecidableEq, Repr

/-- `TLDiscriminant`: the discriminant of an enum variant
(`type_layout.rs` lines 160-169). -/
inductive TLDiscriminant where
  | No
  | Isize (n : Int)
  | Usize (n : Nat)
  | Signed (n : Int)
  | Unsigned (n : Nat)
deriving DecidableEq, Repr

/-- `TLDiscriminant::from_u8` (`type_layout.rs` 172): `Unsigned(n as u64)`;
the `u8 → u64` cast preserves the value. -/
def TLDiscriminant.from_u8 (n : Nat) : TLDiscriminant := .Unsigned n

/-- `TLDiscriminant::from_u16` (`type_layout.rs` 175). -/
def TLDiscriminant.from_u16 (n : Nat) : TLDiscriminant := .Unsigned n

/-- `TLDiscriminant::from_u32` (`type_layout.rs` 178). -/
def TLDiscriminant.from_u32 (n : Nat) : TLDiscriminant := .Unsigned n

/-- `TLDiscriminant::from_u64` (`type_layout.rs` 181). -/
def TLDiscriminant.from_u64 (n : Nat) : TLDiscriminant := .Unsigned n

/-- `TLDiscriminant::from_i8` (`type_layout.rs` 185): `Signed(n as i64)`;
the sign-extending `i8 → i64` cast preserves the represented value. -/
def TLDiscriminant.from_i8 (n : Int) : TLDiscriminant := .Signed n

/-- `TLDiscriminant::from_i16` (`type_layout.rs` 188). -/
def TLDiscriminant.from_i16 (n : Int) : TLDiscriminant := .Signed n

/-- `TLDiscriminant::from_i32` (`type_layout.rs` 191): `Signed(n as i64)`;
the sign-extending `i32 → i64` cast preserves the represented value. -/
def TLDiscriminant.from_i32 (n : Int) : TLDiscriminant := .Signed n

/-- `TLDiscriminant::from_i64` (`type_layout.rs` 194): `Signed(n)`. -/
def TLDiscriminant.from_i64 (n : Int) : TLDiscriminant := .Signed n

/-- `FieldAccessor`: how a field is accessed (`type_layout.rs` lines
272-285).  The source's `Opaque` variant ("completely inaccessible") is
spelled `Inaccessible` here. -/
inductive FieldAccessor where
  | Direct
  | Method (name : Option StaticStr)
  | MethodOption
  | Inaccessible
deriving DecidableEq, Repr

/-- `FieldAccessor::method_named` (`type_layout.rs` 289-294). -/
def FieldAccessor.method_named (name : StaticStr) : FieldAccessor :=
  .Method (some name)

/-- `TLDataDiscriminant` (`type_layout.rs` lines 140-148). -/
inductive TLDataDiscriminant where
  | Primitive
  | Struct
  | Enum
  | PrefixType
deriving DecidableEq, Repr

mutual

/-- `TLField` (`type_layout.rs` lines 230-251).  The `abi_info:
GetAbiInfo` function pointer is modelled as the address of the
`&'static AbiInfo` it returns, resolved through an `Env`. -/
inductive TLField where
  | mk
    (name : StaticStr)
    (lifetime_indices : List LifetimeIndex)
    (abi_info : Addr)
    (functions : List TLFunction)
    (is_function : Bool)
    (field_accessor : FieldAccessor)

/-- `TLFunction` (`type_layout.rs` lines 776-796). -/
inductive TLFunction where
  | mk
    (name : StaticStr)
    (bound_lifetimes : List StaticStr)
    (params : List TLField)
    (returns : Option TLField)

end

def TLField.name : TLField → StaticStr
  | .mk n _ _ _ _ _ => n

def TLField.lifetime_indices : TLField → List LifetimeIndex
  | .mk _ l _ _ _ _ => l

def TLField.abi_info : TLField → Addr
  | .mk _ _ a _ _ _ => a

def TLField.functions : TLField → List TLFunction
  | .mk _ _ _ f _ _ => f

def TLField.is_function : TLField → Bool
  | .mk _ _ _ _ b _ => b

def TLField.field_accessor : TLField → FieldAccessor
  | .mk _ _ _ _ _ a => a

/-- `TLField::new` (`type_layout.rs` lines 300-313). -/
def TLField.new (name : StaticStr) (lifetime_indices : List LifetimeIndex)
    (abi_info : Addr) : TLField :=
  .mk name lifetime_indices abi_info [] false .Direct

/-- `TLField::with_functions` (`type_layout.rs` lines 315-330). -/
def TLField.with_functions (name : StaticStr)
    (lifetime_indices : List LifetimeIndex) (abi_info : Addr)
    (functions : List TLFunction) (is_function : Bool) : TLField :=
  .mk name lifetime_indices abi_info functions is_function .Direct

/-- `TLField::set_field_accessor` (`type_layout.rs` lines 332-335). -/
def TLField.set_field_accessor : TLField → FieldAccessor → TLField
  | .mk n l a f b _, acc => .mk n l a f b acc

/-- `TLEnumVariant` (`type_layout.rs` lines 150-157). -/
structure TLEnumVariant where
  name : StaticStr
  discriminant : TLDiscriminant
  fields : List TLField

/-- `TLEnumVariant::new` (`type_layout.rs` lines 644-650). -/
def TLEnumVariant.new (name : StaticStr) (fields : List TLField) :
    TLEnumVariant :=
  ⟨name, .No, fields⟩

/-- `TLEnumVariant::set_discriminant` (`type_layout.rs` lines 652-655). -/
def TLEnumVariant.set_discriminant (v : TLEnumVariant)
    (discriminant : TLDiscriminant) : TLEnumVariant :=
  ⟨v.name, discriminant, v.fields⟩

/-- `TLPrefixType` (`type_layout.rs` lines 127-136). -/
structure TLPrefixType where
  first_suffix_field : Nat
  accessible_fields : FieldAccessibility
  conditional_prefix_fields : List IsConditional
  fields : List TLField

/-- `TLData` (`type_layout.rs` lines 105-124). -/
inductive TLData where
  | Primitive
  | Struct (fields : List TLField)
  | Enum (variants : List TLEnumVariant)
  | PrefixType (p : TLPrefixType)

/-- `TLData::struct_` (`type_layout.rs` lines 606-610). -/
def TLData.struct_ (fields : List TLField) : TLData := .Struct fields

/-- `TLData::enum_` (`type_layout.rs` lines 611-615). -/
def TLData.enum_ (variants : List TLEnumVariant) : TLData := .Enum variants

/-- `TLData::prefix_type` (`type_layout.rs` lines 617-629). -/
def TLData.prefix_type (first_suffix_field : Nat)
    (accessible_fields : FieldAccessibility)
    (conditional_prefix_fields : List IsConditional)
    (fields : List TLField) : TLData :=
  .PrefixType ⟨first_suffix_field, accessible_fields,
    conditional_prefix_fields, fields⟩

/-- `TLData::as_discriminant` (`type_layout.rs` lines 631-638). -/
def TLData.as_discriminant : TLData → TLDataDiscriminant
  | .Primitive => .Primitive
  | .Struct _ => .Struct
  | .Enum _ => .Enum
  | .PrefixType _ => .PrefixType

mutual

/-- `TypeLayout` (`type_layout.rs` lines 44-64); field order matches the
declaration order of the Rust struct, which is also the comparison order of
its derived `PartialEq`. -/
inductive TypeLayout where
  | mk
    (name : StaticStr)
    (package : StaticStr)
    (package_version : VersionStrings)
    (file : CmpIgnored StaticStr)
    (line : CmpIgnored Nat)
    (size : Nat)
    (alignment : Nat)
    (data : TLData)
    (full_type : FullType)
    (phantom_fields : List TLField)
    (reflection_tag : Tag)
    (tag : Tag)
    (mod_refl_mode : ModReflMode)
    (repr_attr : ReprAttr)

/-- `FullType` (`type_layout.rs` lines 95-103). -/
inductive FullType where
  | mk
    (name : StaticStr)
    (primitive : Option RustPrimitive)
    (generics : GenericParams)

/-- `GenericParams` (`type_layout.rs` lines 87-93).  The `type_:
StaticSlice<&'static TypeLayout>` direct references are modelled as nested
`TypeLayout` values (shared statics become equal subtrees; only the lazy
`GetAbiInfo` indirection of fields can form cycles, matching the source
comment on `TLField.abi_info`). -/
inductive GenericParams where
  | mk
    (lifetime : List StaticStr)
    (type_ : List TypeLayout)
    (const_ : List StaticStr)

end

def TypeLayout.name : TypeLayout → StaticStr
  | .mk n _ _ _ _ _ _ _ _ _ _ _ _ _ => n

def TypeLayout.package : TypeLayout → StaticStr
  | .mk _ p _ _ _ _ _ _ _ _ _ _ _ _ => p

def TypeLayout.package_version : TypeLayout → VersionStrings
  | .mk _ _ v _ _ _ _ _ _ _ _ _ _ _ => v

def TypeLayout.file : TypeLayout → CmpIgnored StaticStr
  | .mk _ _ _ f _ _ _ _ _ _ _ _ _ _ => f

def TypeLayout.line : TypeLayout → CmpIgnored Nat
  | .mk _ _ _ _ l _ _ _ _ _ _ _ _ _ => l

def TypeLayout.size : TypeLayout → Nat
  | .mk _ _ _ _ _ s _ _ _ _ _ _ _ _ => s

def TypeLayout.alignment : TypeLayout → Nat
  | .mk _ _ _ _ _ _ a _ _ _ _ _ _ _ => a

def TypeLayout.data : TypeLayout → TLData
  | .mk _ _ _ _ _ _ _ d _ _ _ _ _ _ => d

def TypeLayout.full_type : TypeLayout → FullType
  | .mk _ _ _ _ _ _ _ _ ft _ _ _ _ _ => ft

def TypeLayout.phantom_fields : TypeLayout → List TLField
  | .mk _ _ _ _ _ _ _ _ _ ph _ _ _ _ => ph

def TypeLayout.reflection_tag : TypeLayout → Tag
  | .mk _ _ _ _ _ _ _ _ _ _ rt _ _ _ => rt

def TypeLayout.tag : TypeLayout → Tag
  | .mk _ _ _ _ _ _ _ _ _ _ _ t _ _ => t

def TypeLayout.mod_refl_mode : TypeLayout → ModReflMode
  | .mk _ _ _ _ _ _ _ _ _ _ _ _ m _ => m

def TypeLayout.repr_attr : TypeLayout → ReprAttr
  | .mk _ _ _ _ _ _ _ _ _ _ _ _ _ r => r

def FullType.name : FullType → StaticStr
  | .mk n _ _ => n

def FullType.primitive : FullType → Option RustPrimitive
  | .mk _ p _ => p

def FullType.generics : FullType → GenericParams
  | .mk _ _ g => g

/-- `FullType::new` (`type_layout.rs` lines 661-672). -/
def FullType.new (name : StaticStr) (primitive : Option RustPrimitive)
    (generics : GenericParams) : FullType :=
  .mk name primitive generics

def GenericParams.lifetime : GenericParams → List StaticStr
  | .mk l _ _ => l

def GenericParams.type_ : GenericParams → List TypeLayout
  | .mk _ t _ => t

def GenericParams.const_ : GenericParams → List StaticStr
  | .mk _ _ c => c

/-- `GenericParams::new` (`type_layout.rs` lines 558-568). -/
def GenericParams.new (lifetime : List StaticStr) (type_ : List TypeLayout)
    (const_ : List StaticStr) : GenericParams :=
  .mk lifetime type_ const_

/-- `GenericParams::is_empty` (`type_layout.rs` lines 570-572). -/
def GenericParams.is_empty (g : GenericParams) : Bool :=
  g.lifetime.isEmpty && g.type_.isEmpty && g.const_.isEmpty

/-- Modelled from the spec: `AbiInfo` (`stable_abi_trait` module, not under
`src/`): the target of a field's lazily-resolved descriptor reference — a
prefix-kind flag plus the `TypeLayout` it carries; compared field-wise by
its derived `PartialEq`. -/
structure AbiInfo where
  prefix_kind : Bool
  layout : TypeLayout

/-- The resolution environment for `GetAbiInfo`: the set of `&'static
AbiInfo` nodes of a program, indexed by address. -/
abbrev Env := List AbiInfo

/-- The layout a dangling address resolves to (never reached for the closed
environments used in the theorems below). -/
def defaultAbiInfo : AbiInfo :=
  ⟨false, .mk "()" "std" ⟨"1", "0", "0"⟩ ⟨"<standard_library>"⟩ ⟨0⟩ 0 1
    .Primitive (.mk "()" none (.mk [] [] [])) [] .null .null .Module
    (.C none)⟩

/-- `GetAbiInfo::get`: resolve a field's `abi_info` address. -/
def Env.get (env : Env) (a : Addr) : AbiInfo :=
  List.getD env a defaultAbiInfo

/-- The thread-local `RecursionState` of the traversal engine
(`type_layout.rs` lines 411-424): recursion-depth counter, total
visited-node counter, and the set of visited `AbiInfo` addresses
(`HashSet<*const AbiInfo>` modelled as a duplicate-free list). -/
structure RecursionState where
  recursion_depth : Nat
  visited_nodes : Nat
  visited : List Addr
deriving DecidableEq, Repr

/-- The initial value of the thread-local state (`type_layout.rs` lines
418-424), which is also what `impl Drop for ResetRecursion` (lines 397-408)
restores. -/
def RecursionState.init : RecursionState := ⟨0, 0, []⟩

/-- The state update performed at the entry of `TLField::recursive`
(`type_layout.rs` lines 349-356): increment both counters and insert the
field's target address into the visited set (`HashSet::replace`). -/
def bump (s : RecursionState) (a : Addr) : RecursionState :=
  ⟨s.recursion_depth + 1, s.visited_nodes + 1,
    if s.visited.contains a then s.visited else a :: s.visited⟩

/-- The state update performed when `TLField::recursive` exits
(`type_layout.rs` lines 358, 363-366 and the `ResetRecursion` guard, lines
397-408): the depth counter is decremented, and if the entry state had
`visited_nodes == 0` (the outermost call, which created the guard) the whole
state is reset to its initial value. -/
def closeTraversal (entry s2 : RecursionState) : RecursionState :=
  if entry.visited_nodes = 0 then RecursionState.init
  else ⟨s2.recursion_depth - 1, s2.visited_nodes, s2.visited⟩

/-- `TLFieldShallow` (`type_layout.rs` lines 735-748): the shallow view of a
field used by one step of the traversal; field order matches the Rust
declaration order, which is also the comparison order of its derived
`PartialEq`.  The `abi_info: Option<&'static AbiInfo>` reference is stored
as the resolved `AbiInfo` value, which is what reference equality compares. -/
structure TLFieldShallow where
  name : StaticStr
  full_type : FullType
  lifetime_indices : List LifetimeIndex
  abi_info : Option AbiInfo
  functions : List TLFunction
  is_function : Bool
  field_accessor : FieldAccessor

/-- `TLFieldShallow::new` (`type_layout.rs` lines 750-768). -/
def TLFieldShallow.new (env : Env) (field : TLField)
    (include_abi_info : Bool) : TLFieldShallow :=
  let abi_info := env.get field.abi_info
  ⟨field.name, abi_info.layout.full_type, field.lifetime_indices,
    if include_abi_info then some abi_info else none,
    field.functions, field.is_function, field.field_accessor⟩

/-- Short-circuiting sequencing of `&&`-chained comparisons: a later
comparison runs only if the earlier one returned `true`; `none` (out of
fuel) propagates. -/
def andThen (x : Option (Bool × RecursionState))
    (f : RecursionState → Option (Bool × RecursionState)) :
    Option (Bool × RecursionState) :=
  match x with
  | none => none
  | some (false, s) => some (false, s)
  | some (true, s) => f s

/-- One pending comparison of the equality traversal.  Each constructor
corresponds to one `PartialEq` implementation of the source: the derived
ones of `TypeLayout`, `FullType`, `GenericParams`, `TLData`,
`TLEnumVariant`, `TLFunction`, `TLFieldShallow` and `AbiInfo`, slice
equality for the `StaticSlice` fields, and the hand-written
`impl PartialEq for TLField` (`type_layout.rs` lines 372-379). -/
inductive EqTask where
  | tl (a b : TypeLayout)
  | ft (a b : FullType)
  | gp (a b : GenericParams)
  | tlSlice (a b : List TypeLayout)
  | data (a b : TLData)
  | fieldSlice (a b : List TLField)
  | variantSlice (a b : List TLEnumVariant)
  | funcSlice (a b : List TLFunction)
  | field (a b : TLField)
  | shallow (a b : TLFieldShallow)
  | abi (a b : AbiInfo)

/-- The equality traversal.  `eqRun env fuel task s` runs the comparison
`task` in traversal state `s`, returning the boolean result together with
the final state, or `none` when the step budget `fuel` is exhausted (each
nested comparison call consumes one unit).  Pure leaf comparisons are
decidable equalities; `&&` chains short-circuit exactly as the derived
`PartialEq` impls do, in field-declaration order. -/
def eqRun (env : Env) : Nat → EqTask → RecursionState →
    Option (Bool × RecursionState)
  | 0, _, _ => none
  | fuel + 1, task, s =>
    match task with
    -- derived `PartialEq` for `TypeLayout` (`type_layout.rs` line 45):
    -- fields compared in declaration order; adjacent runs of
    -- side-effect-free leaf comparisons are grouped into one condition
    | .tl (.mk n1 p1 v1 f1 l1 sz1 al1 d1 ft1 ph1 rt1 tg1 m1 r1)
          (.mk n2 p2 v2 f2 l2 sz2 al2 d2 ft2 ph2 rt2 tg2 m2 r2) =>
      if n1 = n2 ∧ p1 = p2 ∧ v1 = v2 ∧ CmpIgnored.ceq f1 f2 = true ∧
          CmpIgnored.ceq l1 l2 = true ∧ sz1 = sz2 ∧ al1 = al2 then
        andThen (eqRun env fuel (.data d1 d2) s) fun s =>
        andThen (eqRun env fuel (.ft ft1 ft2) s) fun s =>
        andThen (eqRun env fuel (.fieldSlice ph1 ph2) s) fun s =>
        if rt1 = rt2 ∧ tg1 = tg2 ∧ m1 = m2 ∧ r1 = r2 then some (true, s)
        else some (false, s)
      else some (false, s)
    -- derived `PartialEq` for `FullType` (`type_layout.rs` line 98)
    | .ft (.mk n1 p1 g1) (.mk n2 p2 g2) =>
      if n1 = n2 ∧ p1 = p2 then eqRun env fuel (.gp g1 g2) s
      else some (false, s)
    -- derived `PartialEq` for `GenericParams` (`type_layout.rs` line 88)
    | .gp (.mk lt1 ty1 c1) (.mk lt2 ty2 c2) =>
      if lt1 = lt2 then
      andThen (eqRun env fuel (.tlSlice ty1 ty2) s) fun s =>
      if c1 = c2 then some (true, s) else some (false, s)
      else some (false, s)
    -- slice equality for `StaticSlice<&'static TypeLayout>`: length first,
    -- then element-wise (dereferencing compares the pointees)
    | .tlSlice a b =>
      if a.length = b.length then
        match a, b with
        | [], [] => some (true, s)
        | x :: xs, y :: ys =>
          andThen (eqRun env fuel (.tl x y) s) fun s =>
          eqRun env fuel (.tlSlice xs ys) s
        | _, _ => some (false, s)
      else some (false, s)
    -- derived `PartialEq` for `TLData` and `TLPrefixType`
    -- (`type_layout.rs` lines 109, 129)
    | .data .Primitive .Primitive => some (true, s)
    | .data (.Struct fs1) (.Struct fs2) =>
      eqRun env fuel (.fieldSlice fs1 fs2) s
    | .data (.Enum vs1) (.Enum vs2) =>
      eqRun env fuel (.variantSlice vs1 vs2) s
    | .data (.PrefixType ⟨fsf1, af1, cpf1, fl1⟩)
            (.PrefixType ⟨fsf2, af2, cpf2, fl2⟩) =>
      if fsf1 = fsf2 ∧ af1 = af2 ∧ cpf1 = cpf2 then
        eqRun env fuel (.fieldSlice fl1 fl2) s
      else some (false, s)
    | .data _ _ => some (false, s)
    -- slice equality for `StaticSlice<TLField>`
    | .fieldSlice a b =>
      if a.length = b.length then
        match a, b with
        | [], [] => some (true, s)
        | x :: xs, y :: ys =>
          andThen (eqRun env fuel (.field x y) s) fun s =>
          eqRun env fuel (.fieldSlice xs ys) s
        | _, _ => some (false, s)
      else some (false, s)
    -- slice equality for `StaticSlice<TLEnumVariant>`, each element by the
    -- derived `PartialEq` for `TLEnumVariant` (`type_layout.rs` line 152)
    | .variantSlice a b =>
      if a.length = b.length then
        match a, b with
        | [], [] => some (true, s)
        | ⟨n1, d1, fs1⟩ :: xs, ⟨n2, d2, fs2⟩ :: ys =>
          if n1 = n2 ∧ d1 = d2 then
            andThen (eqRun env fuel (.fieldSlice fs1 fs2) s) fun s =>
            eqRun env fuel (.variantSlice xs ys) s
          else some (false, s)
        | _, _ => some (false, s)
      else some (false, s)
    -- slice equality for `StaticSlice<TLFunction>`, each element by the
    -- derived `PartialEq` for `TLFunction` (`type_layout.rs` line 777)
    | .funcSlice a b =>
      if a.length = b.length then
        match a, b with
        | [], [] => some (true, s)
        | (.mk n1 bl1 ps1 r1) :: xs, (.mk n2 bl2 ps2 r2) :: ys =>
          if n1 = n2 ∧ bl1 = bl2 then
            andThen (eqRun env fuel (.fieldSlice ps1 ps2) s) fun s =>
            andThen
              (match r1, r2 with
               | none, none => some (true, s)
               | some x, some y => eqRun env fuel (.field x y) s
               | _, _ => some (false, s)) fun s =>
            eqRun env fuel (.funcSlice xs ys) s
          else some (false, s)
        | _, _ => some (false, s)
      else some (false, s)
    -- `impl PartialEq for TLField` (`type_layout.rs` lines 372-379),
    -- via `TLField::recursive` (lines 341-369)
    | .field f1 f2 =>
      let already := s.visited.contains f1.abi_info
      let s1 := bump s f1.abi_info
      let thisF := TLFieldShallow.new env f1 (!already)
      let r := TLFieldShallow.new env f2 thisF.abi_info.isSome
      (match eqRun env fuel (.shallow thisF r) s1 with
       | none => none
       | some (b, s2) => some (b, closeTraversal s s2))
    -- derived `PartialEq` for `TLFieldShallow` (`type_layout.rs` line 735)
    | .shallow (.mk n1 ft1 lt1 ai1 fn1 isf1 fa1)
               (.mk n2 ft2 lt2 ai2 fn2 isf2 fa2) =>
      if n1 = n2 then
        andThen (eqRun env fuel (.ft ft1 ft2) s) fun s =>
        if lt1 = lt2 then
          andThen
            (match ai1, ai2 with
             | none, none => some (true, s)
             | some a, some b => eqRun env fuel (.abi a b) s
             | _, _ => some (false, s)) fun s =>
          andThen (eqRun env fuel (.funcSlice fn1 fn2) s) fun s =>
          if isf1 = isf2 ∧ fa1 = fa2 then some (true, s)
          else some (false, s)
        else some (false, s)
      else some (false, s)
    -- derived `PartialEq` for `AbiInfo` (spec-modelled, see `AbiInfo`)
    | .abi ⟨pk1, l1⟩ ⟨pk2, l2⟩ =>
      if pk1 = pk2 then eqRun env fuel (.tl l1 l2) s
      else some (false, s)

/-- `Debug` rendering of a `&'static str` (quoted, escapes elided). -/
def renderStr (s : StaticStr) : String := "\"" ++ s ++ "\""

/-- Derived `Debug` for `VersionStrings`. -/
def renderVersion (v : VersionStrings) : String :=
  "VersionStrings \x7b major: " ++ renderStr v.major ++ ", minor: " ++
    renderStr v.minor ++ ", patch: " ++ renderStr v.patch ++ " \x7d"

/-- `Debug` for `CmpIgnored` (ignored_wrapper, spec-modelled): shows the
wrapped value. -/
def renderCmpIgnored (render : α → String) (c : CmpIgnored α) : String :=
  render c.value

/-- `Debug` for `Tag` (tagging module, spec-modelled). -/
def renderTag (t : Tag) : String := "Tag(" ++ toString t.code ++ ")"

/-- Derived `Debug` for `ModReflMode` (spec-modelled). -/
def renderModReflMode : ModReflMode → String
  | .Module => "Module"
  | .DelegateDeref => "DelegateDeref"
  | .Ignored => "Ignored"

/-- Derived `Debug` for `DiscriminantRepr`. -/
def renderDiscriminantRepr : DiscriminantRepr → String
  | .U8 => "U8" | .I8 => "I8" | .U16 => "U16" | .I16 => "I16"
  | .U32 => "U32" | .I32 => "I32" | .U64 => "U64" | .I64 => "I64"
  | .U128 => "U128" | .I128 => "I128" | .Usize => "Usize" | .Isize => "Isize"

/-- Derived `Debug` for `ReprAttr`. -/
def renderReprAttr : ReprAttr → String
  | .C none => "C(RNone)"
  | .C (some r) => "C(RSome(" ++ renderDiscriminantRepr r ++ "))"
  | .Transparent => "Transparent"
  | .Int r => "Int(" ++ renderDiscriminantRepr r ++ ")"

/-- Derived `Debug` for `TLDiscriminant`. -/
def renderTLDiscriminant : TLDiscriminant → String
  | .No => "No"
  | .Isize n => "Isize(" ++ toString n ++ ")"
  | .Usize n => "Usize(" ++ toString n ++ ")"
  | .Signed n => "Signed(" ++ toString n ++ ")"
  | .Unsigned n => "Unsigned(" ++ toString n ++ ")"

/-- Derived `Debug` for `LifetimeIndex`. -/
def renderLifetimeIndex : LifetimeIndex → String
  | .Static => "Static"
  | .Param n => "Param(" ++ toString n ++ ")"

/-- Derived `Debug` for `FieldAccessor`. -/
def renderFieldAccessor : FieldAccessor → String
  | .Direct => "Direct"
  | .Method none => "Method \x7b name: RNone \x7d"
  | .Method (some n) => "Method \x7b name: RSome(" ++ renderStr n ++ ") \x7d"
  | .MethodOption => "MethodOption"
  | .Inaccessible => "Opaque"

/-- Derived `Debug` for `FieldAccessibility` (spec-modelled). -/
def renderFieldAccessibility (a : FieldAccessibility) : String :=
  "FieldAccessibility(" ++ toString a.bits ++ ")"

/-- Derived `Debug` for `IsConditional` (spec-modelled). -/
def renderIsConditional (c : IsConditional) : String :=
  "IsConditional(" ++ toString c.is_conditional ++ ")"

/-- Derived `Debug` of a list (slice) of already rendered elements. -/
def renderList (xs : List String) : String :=
  "[" ++ String.intercalate ", " xs ++ "]"

/-- The first-piece marker of the `FullType` `Debug` impl: `before_ty` is
printed once, before the first type parameter (`type_layout.rs` lines
713-717). -/
def markFirst (pre : String) : List String → List String
  | [] => []
  | x :: xs => (pre ++ x) :: xs

/-- One pending rendering step of the Debug traversal.  Each constructor
corresponds to one `Debug` implementation of the source: the hand-written
`impl Debug for TLField` (`type_layout.rs` lines 381-392) and
`impl Debug for FullType` (lines 679-731), and the derived ones of
`TLFieldShallow`, `TypeLayout`, `TLData` and the slice element types. -/
inductive DbgTask where
  | field (f : TLField)
  | shallow (sh : TLFieldShallow)
  | tl (t : TypeLayout)
  | data (d : TLData)
  | ft (f : FullType)
  | ftPieces (ty_sep : String) (l : List TypeLayout)
  | fieldSlice (l : List TLField)
  | variantSlice (l : List TLEnumVariant)
  | funcSlice (l : List TLFunction)

/-- Assembled Debug text of a `TLFieldShallow` from its leaf fields and the
already rendered `full_type`, `abi_info` and `functions` parts. -/
def shallowStr (n : StaticStr) (oft : String) (lt : List LifetimeIndex)
    (oai : String) (ofn : String) (isf : Bool) (fa : FieldAccessor) :
    String :=
  "TLFieldShallow \x7b name: " ++ renderStr n
    ++ ", full_type: " ++ oft
    ++ ", lifetime_indices: " ++ renderList (lt.map renderLifetimeIndex)
    ++ ", abi_info: " ++ oai
    ++ ", functions: " ++ ofn
    ++ ", is_function: " ++ toString isf
    ++ ", field_accessor: " ++ renderFieldAccessor fa
    ++ " \x7d"

/-- Assembled Debug text of a present `abi_info` reference (derived `Debug`
of `Option<&AbiInfo>` and `AbiInfo`, the latter spec-modelled). -/
def abiSomeStr (pk : Bool) (ol : String) : String :=
  "Some(AbiInfo \x7b prefix_kind: " ++ toString pk
    ++ ", layout: " ++ ol ++ " \x7d)"

/-- Assembled Debug text of a `TypeLayout` from its leaf fields and the
already rendered `data`, `full_type` and `phantom_fields` parts. -/
def typeLayoutStr (n p : StaticStr) (v : VersionStrings)
    (f : CmpIgnored StaticStr) (l : CmpIgnored Nat) (sz al : Nat)
    (od oft oph : String) (rt tg : Tag) (m : ModReflMode) (r : ReprAttr) :
    String :=
  "TypeLayout \x7b name: " ++ renderStr n
    ++ ", package: " ++ renderStr p
    ++ ", package_version: " ++ renderVersion v
    ++ ", file: " ++ renderCmpIgnored renderStr f
    ++ ", line: " ++ renderCmpIgnored toString l
    ++ ", size: " ++ toString sz
    ++ ", alignment: " ++ toString al
    ++ ", data: " ++ od
    ++ ", full_type: " ++ oft
    ++ ", phantom_fields: " ++ oph
    ++ ", reflection_tag: " ++ renderTag rt
    ++ ", tag: " ++ renderTag tg
    ++ ", mod_refl_mode: " ++ renderModReflMode m
    ++ ", repr_attr: " ++ renderReprAttr r
    ++ " \x7d"

/-- Assembled Debug text of `TLData::PrefixType`. -/
def prefixTypeStr (fsf : Nat) (af : FieldAccessibility)
    (cpf : List IsConditional) (o : String) : String :=
  "PrefixType(TLPrefixType \x7b first_suffix_field: " ++ toString fsf
    ++ ", accessible_fields: " ++ renderFieldAccessibility af
    ++ ", conditional_prefix_fields: "
      ++ renderList (cpf.map renderIsConditional)
    ++ ", fields: " ++ o ++ " \x7d)"

/-- Assembled Debug text of one `TLEnumVariant` element. -/
def variantStr (n : StaticStr) (d : TLDiscriminant) (ofs : String) :
    String :=
  "TLEnumVariant \x7b name: " ++ renderStr n
    ++ ", discriminant: " ++ renderTLDiscriminant d
    ++ ", fields: " ++ ofs ++ " \x7d"

/-- Assembled Debug text of one `TLFunction` element. -/
def functionStr (n : StaticStr) (bl : List StaticStr)
    (ops og : String) : String :=
  "TLFunction \x7b name: " ++ renderStr n
    ++ ", bound_lifetimes: " ++ renderList (bl.map renderStr)
    ++ ", params: " ++ ops
    ++ ", returns: " ++ og ++ " \x7d"

/-- Prepend an element to an already rendered `[...]` slice body. -/
def sliceConsStr (o os : String) : String :=
  if os = "[]" then "[" ++ o ++ "]"
  else "[" ++ o ++ ", " ++ (os.drop 1).dropRight 1 ++ "]"

/-- Assembled Debug text of a `FullType` with nonempty generics, from the
five formatting pieces of the source, the lifetime and const names and the
ty_sep-joined rendering of the type parameters (`type_layout.rs` lines
690-728): the shared-index post_iter loop of the source is equivalent to
joining the three piece groups with `ty_sep`, with `before_ty` prefixed to
the first type parameter. -/
def fullTypeStr (typename start_gen before_ty ty_sep end_gen : String)
    (lt c : List StaticStr) (oty : String) : String :=
  typename ++ start_gen
    ++ String.intercalate ty_sep
      (lt ++ markFirst before_ty (if oty = "" then [] else [oty]) ++ c)
    ++ end_gen

/-- The Debug traversal.  `dbgRun env fuel task s` renders `task` in
traversal state `s`, returning the rendered text and the final state, or
`none` when the step budget `fuel` is exhausted.  The `ft`/`ftPieces` tasks
embed the hand-written `impl Debug for FullType`, which renders only display
identities (never fields) and leaves the traversal state untouched. -/
def dbgRun (env : Env) : Nat → DbgTask → RecursionState →
    Option (String × RecursionState)
  | 0, _, _ => none
  | fuel + 1, task, s =>
    match task with
    -- `impl Debug for TLField` (`type_layout.rs` lines 381-392), via
    -- `TLField::recursive` (lines 341-369); `recursion_depth` is the value
    -- read at entry, and `writeln!` appends a newline to the fixed text
    | .field f =>
      let already := s.visited.contains f.abi_info
      let s1 := bump s f.abi_info
      let x := TLFieldShallow.new env f (!already)
      (match
        (if 2 <= s.recursion_depth then
          some ("<printing recursion limit>\n", s1)
         else dbgRun env fuel (.shallow x) s1) with
       | none => none
       | some (out, s2) => some (out, closeTraversal s s2))
    -- derived `Debug` for `TLFieldShallow` (`type_layout.rs` line 735);
    -- the `abi_info: Option<&'static AbiInfo>` field prints through the
    -- derived `Debug` of `AbiInfo` (spec-modelled), whose `layout` field
    -- prints the full `TypeLayout`
    | .shallow (.mk n ft lt ai fn isf fa) =>
      (match dbgRun env fuel (.ft ft) s with
       | none => none
       | some (oft, s) =>
         match
           (match ai with
            | none => some ("None", s)
            | some a =>
              match dbgRun env fuel (.tl a.layout) s with
              | none => none
              | some (ol, s) => some (abiSomeStr a.prefix_kind ol, s)) with
         | none => none
         | some (oai, s) =>
           match dbgRun env fuel (.funcSlice fn) s with
           | none => none
           | some (ofn, s) =>
             some (shallowStr n oft lt oai ofn isf fa, s))
    -- derived `Debug` for `TypeLayout` (`type_layout.rs` line 45)
    | .tl (.mk n p v f l sz al d ft ph rt tg m r) =>
      (match dbgRun env fuel (.data d) s with
       | none => none
       | some (od, s) =>
         match dbgRun env fuel (.ft ft) s with
         | none => none
         | some (oft, s) =>
           match dbgRun env fuel (.fieldSlice ph) s with
           | none => none
           | some (oph, s) =>
             some (typeLayoutStr n p v f l sz al od oft oph rt tg m r, s))
    -- derived `Debug` for `TLData` and `TLPrefixType`
    | .data .Primitive => some ("Primitive", s)
    | .data (.Struct fs) =>
      (match dbgRun env fuel (.fieldSlice fs) s with
       | none => none
       | some (o, s) => some ("Struct \x7b fields: " ++ o ++ " \x7d", s))
    | .data (.Enum vs) =>
      (match dbgRun env fuel (.variantSlice vs) s with
       | none => none
       | some (o, s) => some ("Enum \x7b variants: " ++ o ++ " \x7d", s))
    | .data (.PrefixType (.mk fsf af cpf fl)) =>
      (match dbgRun env fuel (.fieldSlice fl) s with
       | none => none
       | some (o, s) => some (prefixTypeStr fsf af cpf o, s))
    -- `impl Debug for FullType` (`type_layout.rs` lines 679-731): pick the
    -- surrounding pieces from the primitive kind, then join the parameter
    -- renderings (see `fullTypeStr`); type parameters are rendered through
    -- `param.full_type()` only, never through their fields
    | .ft (.mk n prim (.mk lt ty c)) =>
      let pieces : String × String × String × String × String :=
        match prim with
        | some .Reference => ("&", "", " ", " ", " ")
        | some .MutReference => ("&", "", " mut ", " ", " ")
        | some .ConstPtr => ("*const", " ", "", " ", " ")
        | some .MutPtr => ("*mut", " ", "", " ", " ")
        | some .Array => ("", "[", "", ";", "]")
        | none => (n, "<", "", ", ", ">")
      let (typename, start_gen, before_ty, ty_sep, end_gen) := pieces
      if lt.isEmpty && ty.isEmpty && c.isEmpty then some (typename, s)
      else
      (match dbgRun env fuel (.ftPieces ty_sep ty) s with
       | none => none
       | some (oty, s) =>
         some (fullTypeStr typename start_gen before_ty ty_sep end_gen
           lt c oty, s))
    | .ftPieces ty_sep l =>
      (match l with
       | [] => some ("", s)
       | t :: rest =>
         match dbgRun env fuel (.ft t.full_type) s with
         | none => none
         | some (o, s) =>
           match rest with
           | [] => some (o, s)
           | _ =>
             match dbgRun env fuel (.ftPieces ty_sep rest) s with
             | none => none
             | some (os, s) => some (o ++ ty_sep ++ os, s))
    -- derived `Debug` of `StaticSlice<TLField>`
    | .fieldSlice l =>
      (match l with
       | [] => some ("[]", s)
       | f :: rest =>
         match dbgRun env fuel (.field f) s with
         | none => none
         | some (o, s) =>
           match dbgRun env fuel (.fieldSlice rest) s with
           | none => none
           | some (os, s) => some (sliceConsStr o os, s))
    -- derived `Debug` of `StaticSlice<TLEnumVariant>` elements
    | .variantSlice l =>
      (match l with
       | [] => some ("[]", s)
       | v :: rest =>
         match dbgRun env fuel (.fieldSlice v.fields) s with
         | none => none
         | some (ofs, s) =>
           match dbgRun env fuel (.variantSlice rest) s with
           | none => none
           | some (os, s) =>
             some (sliceConsStr (variantStr v.name v.discriminant ofs) os,
               s))
    -- derived `Debug` of `StaticSlice<TLFunction>` elements
    | .funcSlice l =>
      (match l with
       | [] => some ("[]", s)
       | (.mk n bl ps r) :: rest =>
         match dbgRun env fuel (.fieldSlice ps) s with
         | none => none
         | some (ops, s) =>
         match
           (match r with
            | none => some ("RNone", s)
            | some f =>
              match dbgRun env fuel (.field f) s with
              | none => none
              | some (o, s) => some ("RSome(" ++ o ++ ")", s)) with
         | none => none
         | some (og, s) =>
           match dbgRun env fuel (.funcSlice rest) s with
           | none => none
           | some (os, s) => some (sliceConsStr (functionStr n bl ops og) os, s))


/-- Modelled from the spec: the in-memory size and alignment of a concrete
Rust type `T`, as computed by the compiler intrinsics `mem::size_of::<T>()`
and `mem::align_of::<T>()` ("derived mechanically from the real type, never
hand-entered").  Constructors generic over `T` take this record as the
stand-in for their type parameter. -/
structure RustTypeInfo where
  size : Nat
  alignment : Nat

/-- `TypeLayoutParams` (`type_layout.rs` lines 29-39): the parameters of
`TypeLayout::from_params`; note that it has no size or alignment field. -/
structure TypeLayoutParams where
  name : StaticStr
  package : StaticStr
  package_version : VersionStrings
  file : StaticStr
  line : Nat
  data : TLData
  generics : GenericParams

/-- `TypeLayout::from_std_lib_phantom` (`type_layout.rs` lines 473-500). -/
def TypeLayout.from_std_lib_phantom (T : RustTypeInfo)
    (type_name : StaticStr) (prim : Option RustPrimitive) (data : TLData)
    (genparams : GenericParams) (phantom : List TLField) : TypeLayout :=
  .mk type_name "std" ⟨"1", "0", "0"⟩ ⟨"<standard_library>"⟩ ⟨0⟩
    T.size T.alignment data (FullType.new type_name prim genparams)
    phantom .null .null .Module (.C none)

/-- `TypeLayout::from_std_lib` (`type_layout.rs` lines 465-471). -/
def TypeLayout.from_std_lib (T : RustTypeInfo) (type_name : StaticStr)
    (data : TLData) (generics : GenericParams) : TypeLayout :=
  TypeLayout.from_std_lib_phantom T type_name none data generics []

/-- `TypeLayout::from_params` (`type_layout.rs` lines 506-528). -/
def TypeLayout.from_params (T : RustTypeInfo) (p : TypeLayoutParams) :
    TypeLayout :=
  .mk p.name p.package p.package_version ⟨p.file⟩ ⟨p.line⟩
    T.size T.alignment p.data (.mk p.name none p.generics)
    [] .null .null .Module (.C none)

/-- `TypeLayout::set_phantom_fields` (`type_layout.rs` lines 530-533). -/
def TypeLayout.set_phantom_fields : TypeLayout → List TLField → TypeLayout
  | .mk n p v f l sz al d ft _ rt tg m r, ph =>
    .mk n p v f l sz al d ft ph rt tg m r

/-- `TypeLayout::set_tag` (`type_layout.rs` lines 535-538). -/
def TypeLayout.set_tag : TypeLayout → Tag → TypeLayout
  | .mk n p v f l sz al d ft ph rt _ m r, tg =>
    .mk n p v f l sz al d ft ph rt tg m r

/-- `TypeLayout::set_reflection_tag` (`type_layout.rs` lines 540-543). -/
def TypeLayout.set_reflection_tag : TypeLayout → Tag → TypeLayout
  | .mk n p v f l sz al d ft ph _ tg m r, rt =>
    .mk n p v f l sz al d ft ph rt tg m r

/-- `TypeLayout::set_mod_refl_mode` (`type_layout.rs` lines 545-548). -/
def TypeLayout.set_mod_refl_mode : TypeLayout → ModReflMode → TypeLayout
  | .mk n p v f l sz al d ft ph rt tg _ r, m =>
    .mk n p v f l sz al d ft ph rt tg m r

/-- `TypeLayout::set_repr_attr` (`type_layout.rs` lines 549-552). -/
def TypeLayout.set_repr_attr : TypeLayout → ReprAttr → TypeLayout
  | .mk n p v f l sz al d ft ph rt tg m _, r =>
    .mk n p v f l sz al d ft ph rt tg m r

mutual

/-- Normalisation of a layout up to its `CmpIgnored` source-location fields:
`scrubTL t` replaces every `file`/`line` (also inside nested generic
parameter layouts) by fixed values.  Two layouts with the same scrub differ
at most in data the derived `PartialEq` ignores. -/
def scrubTL : TypeLayout → TypeLayout
  | .mk n p v _ _ sz al d ft ph rt tg m r =>
    .mk n p v ⟨""⟩ ⟨0⟩ sz al d (scrubFT ft) ph rt tg m r

def scrubFT : FullType → FullType
  | .mk n p g => .mk n p (scrubGP g)

def scrubGP : GenericParams → GenericParams
  | .mk lt ty c => .mk lt (scrubTLList ty) c

def scrubTLList : List TypeLayout → List TypeLayout
  | [] => []
  | t :: ts => scrubTL t :: scrubTLList ts

end

/-- A comparison outcome that can never report a mismatch: it either ran out
of fuel or returned `true`. -/
def okRes (x : Option (Bool × RecursionState)) : Prop :=
  x = none ∨ ∃ s2, x = some (true, s2)

/-- The hypothesis under which one `EqTask` is a self-comparison up to
`CmpIgnored` fields: layout-shaped sides agree after `scrubTL`, all other
sides are literally equal. -/
def DiagTask : EqTask → Prop
  | .tl a b => scrubTL a = scrubTL b
  | .ft a b => scrubFT a = scrubFT b
  | .gp a b => scrubGP a = scrubGP b
  | .tlSlice a b => scrubTLList a = scrubTLList b
  | .data a b => a = b
  | .fieldSlice a b => a = b
  | .variantSlice a b => a = b
  | .funcSlice a b => a = b
  | .field a b => a = b
  | .shallow a b => a = b
  | .abi a b => a = b

/-- The self-referential struct of spec §8: `struct Foo { x: Foo }` — a
descriptor whose single field's target is the descriptor itself (address 0
in `selfEnv`). -/
def fooField : TLField := TLField.new "x" [] 0

def fooLayout : TypeLayout :=
  .mk "Foo" "example" ⟨"1", "0", "0"⟩ ⟨"lib.rs"⟩ ⟨1⟩ 4 4
    (.Struct [fooField]) (.mk "Foo" none (.mk [] [] [])) []
    .null .null .Module (.C none)

def selfEnv : Env := [⟨false, fooLayout⟩]

/-- A transitively self-referential graph: `struct Node { next: &'static
Node }`.  The field `next` targets the descriptor of `&'static Node`
(address 1), whose generic parameter list carries the `Node` layout itself
(a direct `&'static TypeLayout` reference, as `GenericParams.type_` stores),
closing the cycle back through `next`. -/
def nodeField : TLField := TLField.new "next" [.Static] 1

def nodeLayout : TypeLayout :=
  .mk "Node" "example" ⟨"1", "0", "0"⟩ ⟨"lib.rs"⟩ ⟨5⟩ 8 8
    (.Struct [nodeField]) (.mk "Node" none (.mk [] [] [])) []
    .null .null .Module (.C none)

def refNodeFullType : FullType :=
  .mk "&" (some .Reference) (.mk ["la"] [nodeLayout] [])

def refNodeLayout : TypeLayout :=
  .mk "&" "std" ⟨"1", "0", "0"⟩ ⟨"<standard_library>"⟩ ⟨0⟩ 8 8
    .Primitive refNodeFullType [] .null .null .Module (.C none)

def nodeEnv : Env := [⟨false, nodeLayout⟩, ⟨false, refNodeLayout⟩]

/-- A minimal acyclic environment: one `i32`-like leaf descriptor at
address 0, used by fields whose target plays no role in a claim. -/
def leafLayout : TypeLayout :=
  .mk "i32" "std" ⟨"1", "0", "0"⟩ ⟨"<standard_library>"⟩ ⟨0⟩ 4 4
    .Primitive (.mk "i32" none (.mk [] [] [])) []
    .null .null .Module (.C none)

def leafEnv : Env := [⟨false, leafLayout⟩]

/-- A leaf field over `leafEnv` with a chosen lifetime-index list and
accessor kind; all other attributes fixed. -/
def leafFieldWith (lt : List LifetimeIndex) (acc : FieldAccessor) :
    TLField :=
  .mk "x" lt 0 [] false acc

/-- A struct layout over `leafEnv` whose only field is `leafFieldWith`. -/
def leafStructWith (lt : List LifetimeIndex) (acc : FieldAccessor) :
    TypeLayout :=
  .mk "S" "example" ⟨"1", "0", "0"⟩ ⟨"lib.rs"⟩ ⟨1⟩ 4 4
    (.Struct [leafFieldWith lt acc]) (.mk "S" none (.mk [] [] [])) []
    .null .null .Module (.C none)

/-- A generic-less primitive layout with a chosen lifetime-name list in its
generic parameters, for the lifetime-name comparison claim. -/
def lifetimesLayout (lt : List StaticStr) : TypeLayout :=
  .mk "L" "example" ⟨"1", "0", "0"⟩ ⟨"lib.rs"⟩ ⟨2⟩ 4 4
    .Primitive (.mk "L" none (.mk lt [] [])) []
    .null .null .Module (.C none)

/-- An enum layout with a single unit variant carrying a chosen
discriminant, for the discriminant-width claim. -/
def enumLayoutWith (d : TLDiscriminant) : TypeLayout :=
  .mk "E" "example" ⟨"1", "0", "0"⟩ ⟨"lib.rs"⟩ ⟨3⟩ 4 4
    (.Enum [⟨"A", d, []⟩]) (.mk "E" none (.mk [] [] [])) []
    .null .null .Module (.C none)

/-- Replace the source-location fields of a layout (the two `CmpIgnored`
fields of `TypeLayout`), leaving everything else unchanged. -/
def TypeLayout.withSource : TypeLayout → StaticStr → Nat → TypeLayout
  | .mk n p v _ _ sz al d ft ph rt tg m r, file, line =>
    .mk n p v ⟨file⟩ ⟨line⟩ sz al d ft ph rt tg m r

/-- Termination of an equality comparison in the fuel model: some fuel
budget suffices for the traversal to complete. -/
def EqTerminates (env : Env) (task : EqTask) : Prop :=
  ∃ fuel r, eqRun env fuel task RecursionState.init = some r

/-- Termination of a Debug rendering in the fuel model. -/
def DbgTerminates (env : Env) (task : DbgTask) : Prop :=
  ∃ fuel r, dbgRun env fuel task RecursionState.init = some r

/-- The shallow view of `nodeField` when its target is already visited
(`abi_info` withheld). -/
def nodeShallow : TLFieldShallow :=
  ⟨"next", refNodeFullType, [.Static], none, [], false, .Direct⟩

/-- The shallow view of `nodeField` on first visit (`abi_info` included). -/
def nodeShallowSome : TLFieldShallow :=
  ⟨"next", refNodeFullType, [.Static], some ⟨false, refNodeLayout⟩, [], false,
    .Direct⟩

theorem okRes_none : okRes none := Or.inl rfl

theorem okRes_true (s : RecursionState) : okRes (some (true, s)) :=
  Or.inr ⟨s, rfl⟩

theorem okRes_andThen {x : Option (Bool × RecursionState)}
    {f : RecursionState → Option (Bool × RecursionState)}
    (hx : okRes x) (hf : ∀ s, okRes (f s)) : okRes (andThen x f) := by
  rcases hx with h | ⟨s2, h⟩
  · subst h; exact okRes_none
  · subst h; exact hf s2

theorem TLFieldShallow.new_isSome (env : Env) (f : TLField) (b : Bool) :
    (TLFieldShallow.new env f b).abi_info.isSome = b := by
  cases b <;> rfl

theorem scrubTLList_length (l : List TypeLayout) :
    (scrubTLList l).length = l.length := by
  induction l with
  | nil => rfl
  | cons t ts ih => simp [scrubTLList, ih]

/-- Self-comparison soundness of the equality traversal: on any task whose
two sides agree up to `CmpIgnored` source locations, `eqRun` can only run
out of fuel or answer `true` — it never reports a mismatch. -/
theorem eqRun_diag (env : Env) : ∀ fuel task s, DiagTask task →
    okRes (eqRun env fuel task s) := by
  intro fuel
  induction fuel with
  | zero => intro task s _; exact okRes_none
  | succ fuel ih =>
    intro task s h
    cases task with
    | tl a b =>
      obtain ⟨n1, p1, v1, f1, l1, sz1, al1, d1, ft1, ph1, rt1, tg1, m1, r1⟩ := a
      obtain ⟨n2, p2, v2, f2, l2, sz2, al2, d2, ft2, ph2, rt2, tg2, m2, r2⟩ := b
      simp only [DiagTask, scrubTL, TypeLayout.mk.injEq] at h
      obtain ⟨hn, hp, hv, -, -, hsz, hal, hd, hft, hph, hrt, htg, hm, hr⟩ := h
      subst hn; subst hp; subst hv; subst hsz; subst hal; subst hd
      subst hph; subst hrt; subst htg; subst hm; subst hr
      simp only [eqRun, CmpIgnored.ceq, if_true, eq_self_iff_true]
      exact okRes_andThen (ih (.data d1 d1) s rfl) fun s =>
        okRes_andThen (ih (.ft ft1 ft2) s hft) fun s =>
        okRes_andThen (ih (.fieldSlice ph1 ph1) s rfl) fun s =>
        okRes_true s
    | ft a b =>
      obtain ⟨n1, p1, g1⟩ := a
      obtain ⟨n2, p2, g2⟩ := b
      simp only [DiagTask, scrubFT, FullType.mk.injEq] at h
      obtain ⟨hn, hp, hg⟩ := h
      subst hn; subst hp
      simp only [eqRun, if_true, eq_self_iff_true]
      exact ih (.gp g1 g2) s hg
    | gp a b =>
      obtain ⟨lt1, ty1, c1⟩ := a
      obtain ⟨lt2, ty2, c2⟩ := b
      simp only [DiagTask, scrubGP, GenericParams.mk.injEq] at h
      obtain ⟨hlt, hty, hc⟩ := h
      subst hlt; subst hc
      simp only [eqRun, if_true, eq_self_iff_true]
      exact okRes_andThen (ih (.tlSlice ty1 ty2) s hty) fun s => okRes_true s
    | tlSlice a b =>
      simp only [DiagTask] at h
      have hlen : a.length = b.length := by
        have := congrArg List.length h
        simpa [scrubTLList_length] using this
      cases a with
      | nil =>
        cases b with
        | nil => simp only [eqRun]; exact okRes_true s
        | cons y ys => simp at hlen
      | cons x xs =>
        cases b with
        | nil => simp at hlen
        | cons y ys =>
          simp only [scrubTLList, List.cons.injEq] at h
          obtain ⟨hxy, hxs⟩ := h
          simp only [eqRun, hlen, if_true, eq_self_iff_true]
          exact okRes_andThen (ih (.tl x y) s hxy) fun s =>
            ih (.tlSlice xs ys) s hxs
    | data a b =>
      simp only [DiagTask] at h
      subst h
      cases a with
      | Primitive => simp only [eqRun]; exact okRes_true s
      | Struct fs => simp only [eqRun]; exact ih (.fieldSlice fs fs) s rfl
      | Enum vs => simp only [eqRun]; exact ih (.variantSlice vs vs) s rfl
      | PrefixType p =>
        obtain ⟨fsf, af, cpf, fl⟩ := p
        simp only [eqRun, if_true, eq_self_iff_true]
        exact ih (.fieldSlice fl fl) s rfl
    | fieldSlice a b =>
      simp only [DiagTask] at h
      subst h
      cases a with
      | nil => simp only [eqRun]; exact okRes_true s
      | cons x xs =>
        simp only [eqRun, if_true, eq_self_iff_true]
        exact okRes_andThen (ih (.field x x) s rfl) fun s =>
          ih (.fieldSlice xs xs) s rfl
    | variantSlice a b =>
      simp only [DiagTask] at h
      subst h
      cases a with
      | nil => simp only [eqRun]; exact okRes_true s
      | cons v vs =>
        obtain ⟨n, d, fs⟩ := v
        simp only [eqRun, if_true, eq_self_iff_true]
        exact okRes_andThen (ih (.fieldSlice fs fs) s rfl) fun s =>
          ih (.variantSlice vs vs) s rfl
    | funcSlice a b =>
      simp only [DiagTask] at h
      subst h
      cases a with
      | nil => simp only [eqRun]; exact okRes_true s
      | cons fn fns =>
        obtain ⟨n, bl, ps, r⟩ := fn
        simp only [eqRun, if_true, eq_self_iff_true]
        refine okRes_andThen (ih (.fieldSlice ps ps) s rfl) fun s => ?_
        refine okRes_andThen ?_ fun s => ih (.funcSlice fns fns) s rfl
        cases r with
        | none => exact okRes_true s
        | some x => exact ih (.field x x) s rfl
    | field a b =>
      simp only [DiagTask] at h
      subst h
      simp only [eqRun, TLFieldShallow.new_isSome]
      rcases ih (.shallow (TLFieldShallow.new env a (!s.visited.contains a.abi_info))
          (TLFieldShallow.new env a (!s.visited.contains a.abi_info)))
          (bump s a.abi_info) rfl with h1 | ⟨s2, h2⟩
      · rw [h1]; exact okRes_none
      · rw [h2]; exact okRes_true _
    | shallow a b =>
      simp only [DiagTask] at h
      subst h
      obtain ⟨n, ft, lt, ai, fn, isf, fa⟩ := a
      simp only [eqRun, if_true, eq_self_iff_true]
      refine okRes_andThen (ih (.ft ft ft) s rfl) fun s => ?_
      refine okRes_andThen ?_ fun s =>
        okRes_andThen (ih (.funcSlice fn fn) s rfl) fun s => okRes_true s
      cases ai with
      | none => exact okRes_true s
      | some x => exact ih (.abi x x) s rfl
    | abi a b =>
      simp only [DiagTask] at h
      subst h
      obtain ⟨pk, l⟩ := a
      simp only [eqRun, if_true, eq_self_iff_true]
      exact ih (.tl l l) s rfl

theorem andThen_eq_some {x : Option (Bool × RecursionState)}
    {f : RecursionState → Option (Bool × RecursionState)}
    {b : Bool} {s2 : RecursionState}
    (h : andThen x f = some (b, s2)) :
    (b = false ∧ x = some (false, s2)) ∨
    (∃ s1, x = some (true, s1) ∧ f s1 = some (b, s2)) := by
  rcases x with _ | ⟨b1, s1⟩
  · exact absurd h (by simp [andThen])
  · cases b1
    · simp only [andThen, Option.some.injEq, Prod.mk.injEq] at h
      exact Or.inl ⟨h.1.symm, by rw [h.2]⟩
    · exact Or.inr ⟨s1, rfl, h⟩

theorem bump_visited_subset (s : RecursionState) (a : Addr) :
    s.visited ⊆ (bump s a).visited := by
  simp only [bump]
  split
  · exact List.Subset.refl _
  · exact List.subset_cons_self _ _

theorem bump_mem_visited (s : RecursionState) (a : Addr) :
    a ∈ (bump s a).visited := by
  simp only [bump]
  split
  · next h => simpa [List.contains, List.elem_iff] using h
  · exact List.mem_cons_self _ _

/-- Visited-set and node-counter monotonicity of the equality traversal: a
call entered with a nonzero visited-node counter (so it is not the outermost
call of a traversal and performs no reset) can only grow the visited set and
the node counter. -/
theorem eqRun_mono (env : Env) : ∀ fuel task s b s2,
    eqRun env fuel task s = some (b, s2) → s.visited_nodes ≠ 0 →
    s.visited ⊆ s2.visited ∧ s.visited_nodes ≤ s2.visited_nodes := by
  intro fuel
  induction fuel with
  | zero => intro task s b s2 heq; exact absurd heq (by simp [eqRun])
  | succ fuel ih =>
    intro task s b s2 heq hn
    cases task with
    | tl a b' =>
      obtain ⟨n1, p1, v1, f1, l1, sz1, al1, d1, ft1, ph1, rt1, tg1, m1, r1⟩ := a
      obtain ⟨n2, p2, v2, f2, l2, sz2, al2, d2, ft2, ph2, rt2, tg2, m2, r2⟩ := b'
      simp only [eqRun] at heq
      split at heq
      case isFalse => cases heq; exact ⟨List.Subset.refl _, le_refl _⟩
      case isTrue =>
        rcases andThen_eq_some heq with ⟨-, hx1⟩ | ⟨t1, hx1, hf1⟩
        · exact ih _ _ _ _ hx1 hn
        · obtain ⟨ha1, ha2⟩ := ih _ _ _ _ hx1 hn
          rcases andThen_eq_some hf1 with ⟨-, hx2⟩ | ⟨t2, hx2, hf2⟩
          · obtain ⟨hb1, hb2⟩ := ih _ _ _ _ hx2 (by omega)
            exact ⟨ha1.trans hb1, by omega⟩
          · obtain ⟨hb1, hb2⟩ := ih _ _ _ _ hx2 (by omega)
            rcases andThen_eq_some hf2 with ⟨-, hx3⟩ | ⟨t3, hx3, hf3⟩
            · obtain ⟨hc1, hc2⟩ := ih _ _ _ _ hx3 (by omega)
              exact ⟨(ha1.trans hb1).trans hc1, by omega⟩
            · obtain ⟨hc1, hc2⟩ := ih _ _ _ _ hx3 (by omega)
              split at hf3 <;> cases hf3 <;>
                exact ⟨(ha1.trans hb1).trans hc1, by omega⟩
    | ft a b' =>
      obtain ⟨n1, p1, g1⟩ := a
      obtain ⟨n2, p2, g2⟩ := b'
      simp only [eqRun] at heq
      split at heq
      case isFalse => cases heq; exact ⟨List.Subset.refl _, le_refl _⟩
      case isTrue => exact ih _ _ _ _ heq hn
    | gp a b' =>
      obtain ⟨lt1, ty1, c1⟩ := a
      obtain ⟨lt2, ty2, c2⟩ := b'
      simp only [eqRun] at heq
      split at heq
      case isFalse => cases heq; exact ⟨List.Subset.refl _, le_refl _⟩
      case isTrue =>
        rcases andThen_eq_some heq with ⟨-, hx1⟩ | ⟨t1, hx1, hf1⟩
        · exact ih _ _ _ _ hx1 hn
        · obtain ⟨ha1, ha2⟩ := ih _ _ _ _ hx1 hn
          split at hf1 <;> cases hf1 <;> exact ⟨ha1, by omega⟩
    | tlSlice a b' =>
      cases a with
      | nil =>
        cases b' with
        | nil =>
          simp only [eqRun] at heq
          split at heq <;> cases heq <;> exact ⟨List.Subset.refl _, le_refl _⟩
        | cons y ys =>
          simp only [eqRun] at heq
          split at heq <;> cases heq <;> exact ⟨List.Subset.refl _, le_refl _⟩
      | cons x xs =>
        cases b' with
        | nil =>
          simp only [eqRun] at heq
          split at heq <;> cases heq <;> exact ⟨List.Subset.refl _, le_refl _⟩
        | cons y ys =>
          simp only [eqRun] at heq
          split at heq
          case isFalse => cases heq; exact ⟨List.Subset.refl _, le_refl _⟩
          case isTrue =>
            rcases andThen_eq_some heq with ⟨-, hx1⟩ | ⟨t1, hx1, hf1⟩
            · exact ih _ _ _ _ hx1 hn
            · obtain ⟨ha1, ha2⟩ := ih _ _ _ _ hx1 hn
              obtain ⟨hb1, hb2⟩ := ih _ _ _ _ hf1 (by omega)
              exact ⟨ha1.trans hb1, by omega⟩
    | data a b' =>
      cases a <;> cases b' <;> simp only [eqRun] at heq
      case Primitive.Primitive =>
        cases heq; exact ⟨List.Subset.refl _, le_refl _⟩
      case Struct.Struct => exact ih _ _ _ _ heq hn
      case Enum.Enum => exact ih _ _ _ _ heq hn
      case PrefixType.PrefixType p1 p2 =>
        obtain ⟨fsf1, af1, cpf1, fl1⟩ := p1
        obtain ⟨fsf2, af2, cpf2, fl2⟩ := p2
        simp only [eqRun] at heq
        split at heq
        case isFalse => cases heq; exact ⟨List.Subset.refl _, le_refl _⟩
        case isTrue => exact ih _ _ _ _ heq hn
      all_goals (cases heq; exact ⟨List.Subset.refl _, le_refl _⟩)
    | fieldSlice a b' =>
      cases a with
      | nil =>
        cases b' <;> simp only [eqRun] at heq <;> split at heq <;>
          cases heq <;> exact ⟨List.Subset.refl _, le_refl _⟩
      | cons x xs =>
        cases b' with
        | nil =>
          simp only [eqRun] at heq
          split at heq <;> cases heq <;> exact ⟨List.Subset.refl _, le_refl _⟩
        | cons y ys =>
          simp only [eqRun] at heq
          split at heq
          case isFalse => cases heq; exact ⟨List.Subset.refl _, le_refl _⟩
          case isTrue =>
            rcases andThen_eq_some heq with ⟨-, hx1⟩ | ⟨t1, hx1, hf1⟩
            · exact ih _ _ _ _ hx1 hn
            · obtain ⟨ha1, ha2⟩ := ih _ _ _ _ hx1 hn
              obtain ⟨hb1, hb2⟩ := ih _ _ _ _ hf1 (by omega)
              exact ⟨ha1.trans hb1, by omega⟩
    | variantSlice a b' =>
      cases a with
      | nil =>
        cases b' <;> simp only [eqRun] at heq <;> split at heq <;>
          cases heq <;> exact ⟨List.Subset.refl _, le_refl _⟩
      | cons x xs =>
        cases b' with
        | nil =>
          simp only [eqRun] at heq
          split at heq <;> cases heq <;> exact ⟨List.Subset.refl _, le_refl _⟩
        | cons y ys =>
          obtain ⟨n1, d1, fs1⟩ := x
          obtain ⟨n2, d2, fs2⟩ := y
          simp only [eqRun] at heq
          split at heq
          case isFalse => cases heq; exact ⟨List.Subset.refl _, le_refl _⟩
          case isTrue =>
            split at heq
            case isFalse => cases heq; exact ⟨List.Subset.refl _, le_refl _⟩
            case isTrue =>
              rcases andThen_eq_some heq with ⟨-, hx1⟩ | ⟨t1, hx1, hf1⟩
              · exact ih _ _ _ _ hx1 hn
              · obtain ⟨ha1, ha2⟩ := ih _ _ _ _ hx1 hn
                obtain ⟨hb1, hb2⟩ := ih _ _ _ _ hf1 (by omega)
                exact ⟨ha1.trans hb1, by omega⟩
    | funcSlice a b' =>
      cases a with
      | nil =>
        cases b' <;> simp only [eqRun] at heq <;> split at heq <;>
          cases heq <;> exact ⟨List.Subset.refl _, le_refl _⟩
      | cons x xs =>
        cases b' with
        | nil =>
          simp only [eqRun] at heq
          split at heq <;> cases heq <;> exact ⟨List.Subset.refl _, le_refl _⟩
        | cons y ys =>
          obtain ⟨n1, bl1, ps1, r1⟩ := x
          obtain ⟨n2, bl2, ps2, r2⟩ := y
          simp only [eqRun] at heq
          split at heq
          case isFalse => cases heq; exact ⟨List.Subset.refl _, le_refl _⟩
          case isTrue =>
            split at heq
            case isFalse => cases heq; exact ⟨List.Subset.refl _, le_refl _⟩
            case isTrue =>
              rcases andThen_eq_some heq with ⟨-, hx1⟩ | ⟨t1, hx1, hf1⟩
              · exact ih _ _ _ _ hx1 hn
              · obtain ⟨ha1, ha2⟩ := ih _ _ _ _ hx1 hn
                rcases andThen_eq_some hf1 with ⟨-, hx2⟩ | ⟨t2, hx2, hf2⟩
                · cases r1 <;> cases r2 <;> simp only at hx2
                  case none.none => cases hx2
                  case none.some => cases hx2; exact ⟨ha1, by omega⟩
                  case some.none => cases hx2; exact ⟨ha1, by omega⟩
                  case some.some q1 q2 =>
                    obtain ⟨hb1, hb2⟩ := ih _ _ _ _ hx2 (by omega)
                    exact ⟨ha1.trans hb1, by omega⟩
                · have hmid :
                      t1.visited ⊆ t2.visited ∧
                        t1.visited_nodes ≤ t2.visited_nodes := by
                    cases r1 <;> cases r2 <;> simp only at hx2
                    case none.none =>
                      cases hx2; exact ⟨List.Subset.refl _, le_refl _⟩
                    case none.some => cases hx2
                    case some.none => cases hx2
                    case some.some q1 q2 => exact ih _ _ _ _ hx2 (by omega)
                  obtain ⟨hb1, hb2⟩ := hmid
                  obtain ⟨hc1, hc2⟩ := ih _ _ _ _ hf2 (by omega)
                  exact ⟨(ha1.trans hb1).trans hc1, by omega⟩
    | field f1 f2 =>
      simp only [eqRun] at heq
      split at heq
      case h_1 => exact Option.noConfusion heq
      case h_2 bb s2' hsh =>
        cases heq
        obtain ⟨ha1, ha2⟩ := ih _ _ _ _ hsh (by simp [bump])
        constructor
        · refine ((bump_visited_subset s f1.abi_info).trans ha1).trans ?_
          simp [closeTraversal, hn]
        · simp only [closeTraversal, if_neg hn]
          simp only [bump] at ha2
          omega
    | shallow a b' =>
      obtain ⟨n1, ft1, lt1, ai1, fn1, isf1, fa1⟩ := a
      obtain ⟨n2, ft2, lt2, ai2, fn2, isf2, fa2⟩ := b'
      simp only [eqRun] at heq
      split at heq
      case isFalse => cases heq; exact ⟨List.Subset.refl _, le_refl _⟩
      case isTrue =>
        rcases andThen_eq_some heq with ⟨-, hx1⟩ | ⟨t1, hx1, hf1⟩
        · exact ih _ _ _ _ hx1 hn
        · obtain ⟨ha1, ha2⟩ := ih _ _ _ _ hx1 hn
          split at hf1
          case isFalse => cases hf1; exact ⟨ha1, by omega⟩
          case isTrue =>
            rcases andThen_eq_some hf1 with ⟨-, hx2⟩ | ⟨t2, hx2, hf2⟩
            · have := ha1
              cases ai1 <;> cases ai2 <;> simp only at hx2
              case none.none => cases hx2
              case none.some => cases hx2; exact ⟨ha1, by omega⟩
              case some.none => cases hx2; exact ⟨ha1, by omega⟩
              case some.some q1 q2 =>
                obtain ⟨hb1, hb2⟩ := ih _ _ _ _ hx2 (by omega)
                exact ⟨ha1.trans hb1, by omega⟩
            · have hmid :
                  t1.visited ⊆ t2.visited ∧
                    t1.visited_nodes ≤ t2.visited_nodes := by
                cases ai1 <;> cases ai2 <;> simp only at hx2
                case none.none =>
                  cases hx2; exact ⟨List.Subset.refl _, le_refl _⟩
                case none.some => cases hx2
                case some.none => cases hx2
                case some.some q1 q2 => exact ih _ _ _ _ hx2 (by omega)
              obtain ⟨hb1, hb2⟩ := hmid
              rcases andThen_eq_some hf2 with ⟨-, hx3⟩ | ⟨t3, hx3, hf3⟩
              · obtain ⟨hc1, hc2⟩ := ih _ _ _ _ hx3 (by omega)
                exact ⟨(ha1.trans hb1).trans hc1, by omega⟩
              · obtain ⟨hc1, hc2⟩ := ih _ _ _ _ hx3 (by omega)
                split at hf3 <;> cases hf3 <;>
                  exact ⟨(ha1.trans hb1).trans hc1, by omega⟩
    | abi a b' =>
      obtain ⟨pk1, l1⟩ := a
      obtain ⟨pk2, l2⟩ := b'
      simp only [eqRun] at heq
      split at heq
      case isFalse => cases heq; exact ⟨List.Subset.refl _, le_refl _⟩
      case isTrue => exact ih _ _ _ _ heq hn

/-- The `FullType` Debug rendering never touches the traversal state: it
recurses only through display identities, not fields. -/
theorem dbgRun_ft_state (env : Env) : ∀ fuel s,
    (∀ f o s2, dbgRun env fuel (.ft f) s = some (o, s2) → s2 = s) ∧
    (∀ sep l o s2, dbgRun env fuel (.ftPieces sep l) s = some (o, s2) →
      s2 = s) := by
  intro fuel
  induction fuel with
  | zero =>
    intro s
    exact ⟨fun f o s2 heq => absurd heq (by simp [dbgRun]),
      fun sep l o s2 heq => absurd heq (by simp [dbgRun])⟩
  | succ fuel ih =>
    intro s
    constructor
    · intro f o s2 heq
      obtain ⟨n, prim, g⟩ := f
      obtain ⟨lt, ty, c⟩ := g
      rcases prim with - | p
      · simp only [dbgRun] at heq
        split at heq
        · cases heq; rfl
        · split at heq
          case h_1 => exact Option.noConfusion heq
          case h_2 o1 s1 hp =>
            cases heq
            exact (ih s).2 _ _ _ _ hp
      · cases p <;> simp only [dbgRun] at heq <;>
          (split at heq
           · cases heq; rfl
           · split at heq
             case h_1 => exact Option.noConfusion heq
             case h_2 o1 s1 hp =>
               cases heq
               exact (ih s).2 _ _ _ _ hp)
    · intro sep l o s2 heq
      cases l with
      | nil => simp only [dbgRun] at heq; cases heq; rfl
      | cons t rest =>
        cases rest with
        | nil =>
          simp only [dbgRun] at heq
          split at heq
          case h_1 => exact Option.noConfusion heq
          case h_2 o1 s1 hft =>
            cases heq
            exact (ih s).1 _ _ _ hft
        | cons t2 rest2 =>
          simp only [dbgRun] at heq
          split at heq
          case h_1 => exact Option.noConfusion heq
          case h_2 o1 s1 hft =>
            split at heq
            case h_1 => exact Option.noConfusion heq
            case h_2 o2 s2' hp =>
              have hs1 : s1 = s := (ih s).1 _ _ _ hft
              have hs2 : s2' = s1 := (ih s1).2 _ _ _ _ hp
              cases heq
              exact hs2.trans hs1

set_option maxHeartbeats 1000000 in
/-- Visited-set and node-counter monotonicity of the Debug traversal,
mirroring `eqRun_mono`. -/
theorem dbgRun_mono (env : Env) : ∀ fuel task s o s2,
    dbgRun env fuel task s = some (o, s2) → s.visited_nodes ≠ 0 →
    s.visited ⊆ s2.visited ∧ s.visited_nodes ≤ s2.visited_nodes := by
  intro fuel
  induction fuel with
  | zero => intro task s o s2 heq; exact absurd heq (by simp [dbgRun])
  | succ fuel ih =>
    intro task s o s2 heq hn
    cases task with
    | field f =>
      simp only [dbgRun] at heq
      split at heq
      case h_1 => exact Option.noConfusion heq
      case h_2 out s2' hsh =>
        cases heq
        split at hsh
        case isTrue =>
          cases hsh
          constructor
          · refine (bump_visited_subset s f.abi_info).trans ?_
            simp [closeTraversal, hn]
          · simp [closeTraversal, hn, bump]
        case isFalse =>
          obtain ⟨ha1, ha2⟩ := ih _ _ _ _ hsh (by simp [bump])
          constructor
          · refine ((bump_visited_subset s f.abi_info).trans ha1).trans ?_
            simp [closeTraversal, hn]
          · simp only [closeTraversal, if_neg hn]
            simp only [bump] at ha2
            omega
    | shallow a =>
      obtain ⟨n1, ft1, lt1, ai1, fn1, isf1, fa1⟩ := a
      rcases ai1 with - | a1 <;> simp only [dbgRun] at heq
      · split at heq
        case h_1 => exact Option.noConfusion heq
        case h_2 o1 s1 hft =>
          have hs1 : s1 = s := (dbgRun_ft_state env fuel s).1 _ _ _ hft
          subst hs1
          split at heq
          case h_1 => exact Option.noConfusion heq
          case h_2 o2 s2' hfn =>
            cases heq
            exact ih _ _ _ _ hfn hn
      · split at heq
        case h_1 => exact Option.noConfusion heq
        case h_2 o1 s1 hft =>
          have hs1 : s1 = s := (dbgRun_ft_state env fuel s).1 _ _ _ hft
          subst hs1
          split at heq
          case h_1 => exact Option.noConfusion heq
          case h_2 o2 s2' hmid =>
            split at hmid
            case h_1 => exact Option.noConfusion hmid
            case h_2 ol s1' htl =>
              cases hmid
              split at heq
              case h_1 => exact Option.noConfusion heq
              case h_2 o3 s3 hfn =>
                cases heq
                obtain ⟨ha1, ha2⟩ := ih _ _ _ _ htl hn
                obtain ⟨hb1, hb2⟩ := ih _ _ _ _ hfn (by omega)
                exact ⟨ha1.trans hb1, by omega⟩
    | tl t =>
      obtain ⟨n1, p1, v1, f1, l1, sz1, al1, d1, ft1, ph1, rt1, tg1, m1, r1⟩ := t
      simp only [dbgRun] at heq
      split at heq
      case h_1 => exact Option.noConfusion heq
      case h_2 o1 s1 hd =>
        split at heq
        case h_1 => exact Option.noConfusion heq
        case h_2 o2 s2' hft =>
          have hs2 : s2' = s1 := (dbgRun_ft_state env fuel s1).1 _ _ _ hft
          subst hs2
          rcases hph : dbgRun env fuel (.fieldSlice ph1) s2' with - | ⟨o3, s3⟩
          · rw [hph] at heq
            exact Option.noConfusion heq
          · rw [hph] at heq
            simp only [Option.some.injEq, Prod.mk.injEq] at heq
            obtain ⟨-, hs3⟩ := heq
            subst hs3
            obtain ⟨ha1, ha2⟩ := ih _ _ _ _ hd hn
            obtain ⟨hb1, hb2⟩ := ih _ _ _ _ hph (by omega)
            exact ⟨ha1.trans hb1, by omega⟩
    | data d =>
      cases d with
      | Primitive =>
        simp only [dbgRun] at heq; cases heq
        exact ⟨List.Subset.refl _, le_refl _⟩
      | Struct fs =>
        simp only [dbgRun] at heq
        split at heq
        case h_1 => exact Option.noConfusion heq
        case h_2 o1 s1 hfs => cases heq; exact ih _ _ _ _ hfs hn
      | Enum vs =>
        simp only [dbgRun] at heq
        split at heq
        case h_1 => exact Option.noConfusion heq
        case h_2 o1 s1 hvs => cases heq; exact ih _ _ _ _ hvs hn
      | PrefixType p =>
        obtain ⟨fsf, af, cpf, fl⟩ := p
        simp only [dbgRun] at heq
        split at heq
        case h_1 => exact Option.noConfusion heq
        case h_2 o1 s1 hfl => cases heq; exact ih _ _ _ _ hfl hn
    | ft f =>
      have := (dbgRun_ft_state env (fuel + 1) s).1 _ _ _ heq
      subst this
      exact ⟨List.Subset.refl _, le_refl _⟩
    | ftPieces sep l =>
      have := (dbgRun_ft_state env (fuel + 1) s).2 _ _ _ _ heq
      subst this
      exact ⟨List.Subset.refl _, le_refl _⟩
    | fieldSlice l =>
      cases l with
      | nil =>
        simp only [dbgRun] at heq; cases heq
        exact ⟨List.Subset.refl _, le_refl _⟩
      | cons f rest =>
        simp only [dbgRun] at heq
        split at heq
        case h_1 => exact Option.noConfusion heq
        case h_2 o1 s1 hf =>
          split at heq
          case h_1 => exact Option.noConfusion heq
          case h_2 o2 s2' hrest =>
            cases heq
            obtain ⟨ha1, ha2⟩ := ih _ _ _ _ hf hn
            obtain ⟨hb1, hb2⟩ := ih _ _ _ _ hrest (by omega)
            exact ⟨ha1.trans hb1, by omega⟩
    | variantSlice l =>
      cases l with
      | nil =>
        simp only [dbgRun] at heq; cases heq
        exact ⟨List.Subset.refl _, le_refl _⟩
      | cons v rest =>
        simp only [dbgRun] at heq
        split at heq
        case h_1 => exact Option.noConfusion heq
        case h_2 o1 s1 hfs =>
          split at heq
          case h_1 => exact Option.noConfusion heq
          case h_2 o2 s2' hrest =>
            cases heq
            obtain ⟨ha1, ha2⟩ := ih _ _ _ _ hfs hn
            obtain ⟨hb1, hb2⟩ := ih _ _ _ _ hrest (by omega)
            exact ⟨ha1.trans hb1, by omega⟩
    | funcSlice l =>
      cases l with
      | nil =>
        simp only [dbgRun] at heq; cases heq
        exact ⟨List.Subset.refl _, le_refl _⟩
      | cons fn rest =>
        obtain ⟨n1, bl1, ps1, r1⟩ := fn
        rcases r1 with - | rf <;> simp only [dbgRun] at heq
        · split at heq
          case h_1 => exact Option.noConfusion heq
          case h_2 o1 s1 hps =>
            split at heq
            case h_1 => exact Option.noConfusion heq
            case h_2 o2 s2' hrest =>
              cases heq
              obtain ⟨ha1, ha2⟩ := ih _ _ _ _ hps hn
              obtain ⟨hb1, hb2⟩ := ih _ _ _ _ hrest (by omega)
              exact ⟨ha1.trans hb1, by omega⟩
        · split at heq
          case h_1 => exact Option.noConfusion heq
          case h_2 o1 s1 hps =>
            split at heq
            case h_1 => exact Option.noConfusion heq
            case h_2 o2 s2' hrf =>
              split at hrf
              case h_1 => exact Option.noConfusion hrf
              case h_2 orf s1' hrf2 =>
                cases hrf
                split at heq
                case h_1 => exact Option.noConfusion heq
                case h_2 o3 s3 hrest =>
                  cases heq
                  obtain ⟨ha1, ha2⟩ := ih _ _ _ _ hps hn
                  obtain ⟨hb1, hb2⟩ := ih _ _ _ _ hrf2 (by omega)
                  obtain ⟨hc1, hc2⟩ := ih _ _ _ _ hrest (by omega)
                  exact ⟨(ha1.trans hb1).trans hc1, by omega⟩

theorem nodeShallow_new :
    TLFieldShallow.new nodeEnv nodeField false = nodeShallow := rfl

theorem nodeShallowSome_new :
    TLFieldShallow.new nodeEnv nodeField true = nodeShallowSome := rfl

theorem nodeField_abi : nodeField.abi_info = 1 := rfl

theorem nodeShallow_isSome : nodeShallow.abi_info.isSome = false := rfl

theorem nodeShallowSome_isSome : nodeShallowSome.abi_info.isSome = true := rfl

/-- The non-productive cycle of the equality traversal on the
`Node`/`&'static Node` graph: once address 1 (the `&Node` descriptor) is in
the visited set, every task on the cycle — the `next` field, its shallow
view, the `&Node` full type, its generic parameters carrying the `Node`
layout, and hence the `Node` layout and its field list again — only ever
re-enters the cycle, so every fuel budget is exhausted. -/
theorem nodeLoopNone : ∀ fuel s, s.visited.contains 1 = true →
    eqRun nodeEnv fuel (.field nodeField nodeField) s = none ∧
    eqRun nodeEnv fuel (.shallow nodeShallow nodeShallow) s = none ∧
    eqRun nodeEnv fuel (.ft refNodeFullType refNodeFullType) s = none ∧
    eqRun nodeEnv fuel
      (.gp (.mk ["la"] [nodeLayout] []) (.mk ["la"] [nodeLayout] [])) s
      = none ∧
    eqRun nodeEnv fuel (.tlSlice [nodeLayout] [nodeLayout]) s = none ∧
    eqRun nodeEnv fuel (.tl nodeLayout nodeLayout) s = none ∧
    eqRun nodeEnv fuel
      (.data (.Struct [nodeField]) (.Struct [nodeField])) s = none ∧
    eqRun nodeEnv fuel (.fieldSlice [nodeField] [nodeField]) s = none := by
  intro fuel
  induction fuel with
  | zero =>
    intro s h
    exact ⟨rfl, rfl, rfl, rfl, rfl, rfl, rfl, rfl⟩
  | succ fuel ih =>
    intro s h
    have hmem : (1 : Addr) ∈ s.visited := by simpa using h
    have hb : (bump s 1).visited.contains 1 = true := by simp [bump, hmem]
    obtain ⟨ihf, ihsh, ihft, ihgp, ihsl, ihtl, ihda, ihfs⟩ := ih s h
    obtain ⟨-, ihshb, -, -, -, -, -, -⟩ := ih (bump s 1) hb
    refine ⟨?_, ?_, ?_, ?_, ?_, ?_, ?_, ?_⟩
    · simp only [eqRun, nodeField_abi, h, Bool.not_true, nodeShallow_new,
        nodeShallow_isSome]
      rw [ihshb]
    · simp only [nodeShallow]
      simp only [eqRun, eq_self_iff_true, if_true]
      rw [ihft]
      rfl
    · simp only [refNodeFullType]
      simp only [eqRun, eq_self_iff_true, and_self, if_true]
      exact ihgp
    · simp only [eqRun, eq_self_iff_true, if_true]
      rw [ihsl]
      rfl
    · simp only [eqRun, eq_self_iff_true, if_true, List.length_cons,
        List.length_nil]
      rw [ihtl]
      rfl
    · simp only [nodeLayout]
      simp only [eqRun, eq_self_iff_true, and_self, if_true, CmpIgnored.ceq,
        and_true, true_and]
      rw [ihda]
      rfl
    · simp only [eqRun]
      exact ihfs
    · simp only [eqRun, eq_self_iff_true, if_true, List.length_cons,
        List.length_nil]
      rw [ihf]
      rfl

theorem nodeShallowSome_none : ∀ fuel s, s.visited.contains 1 = true →
    eqRun nodeEnv fuel (.shallow nodeShallowSome nodeShallowSome) s
      = none := by
  intro fuel s h
  cases fuel with
  | zero => rfl
  | succ fuel =>
    simp only [nodeShallowSome]
    simp only [eqRun, eq_self_iff_true, if_true]
    rw [(nodeLoopNone fuel s h).2.2.1]
    rfl

theorem nodeFieldEq_none : ∀ fuel,
    eqRun nodeEnv fuel (.field nodeField nodeField) RecursionState.init
      = none := by
  intro fuel
  cases fuel with
  | zero => rfl
  | succ fuel =>
    have hc : (RecursionState.init.visited.contains nodeField.abi_info)
        = false := rfl
    have hb : (bump RecursionState.init nodeField.abi_info)
        = ⟨1, 1, [1]⟩ := rfl
    simp only [eqRun, hc, Bool.not_false, nodeShallowSome_new,
      nodeShallowSome_isSome, hb]
    rw [nodeShallowSome_none fuel ⟨1, 1, [1]⟩ rfl]

theorem nodeFieldSliceEq_none : ∀ fuel,
    eqRun nodeEnv fuel (.fieldSlice [nodeField] [nodeField])
      RecursionState.init = none := by
  intro fuel
  cases fuel with
  | zero => rfl
  | succ fuel =>
    simp only [eqRun, eq_self_iff_true, if_true, List.length_cons,
      List.length_nil]
    rw [nodeFieldEq_none fuel]
    rfl

theorem nodeDataEq_none : ∀ fuel,
    eqRun nodeEnv fuel (.data (.Struct [nodeField]) (.Struct [nodeField]))
      RecursionState.init = none := by
  intro fuel
  cases fuel with
  | zero => rfl
  | succ fuel =>
    simp only [eqRun]
    exact nodeFieldSliceEq_none fuel

theorem nodeSelfEq_none : ∀ fuel,
    eqRun nodeEnv fuel (.tl nodeLayout nodeLayout) RecursionState.init
      = none := by
  intro fuel
  cases fuel with
  | zero => rfl
  | succ fuel =>
    simp only [nodeLayout]
    simp only [eqRun, eq_self_iff_true, and_self, if_true, CmpIgnored.ceq,
      and_true, true_and]
    rw [nodeDataEq_none fuel]
    rfl

/-- The derived `TLFieldShallow` comparison never answers `true` when the
two shallow views differ in `lifetime_indices` or `field_accessor`, all
other components equal. -/
theorem shallow_diff_false (env : Env) (fuel : Nat) (n : StaticStr)
    (ft : FullType) (lt1 lt2 : List LifetimeIndex) (ai : Option AbiInfo)
    (fn : List TLFunction) (isf : Bool) (fa1 fa2 : FieldAccessor)
    (s s2 : RecursionState) (b : Bool)
    (hdiff : lt1 ≠ lt2 ∨ fa1 ≠ fa2)
    (heq : eqRun env fuel
      (.shallow ⟨n, ft, lt1, ai, fn, isf, fa1⟩ ⟨n, ft, lt2, ai, fn, isf, fa2⟩)
      s = some (b, s2)) : b = false := by
  cases fuel with
  | zero => exact absurd heq (by simp [eqRun])
  | succ fuel =>
    simp only [eqRun, eq_self_iff_true, if_true] at heq
    rcases andThen_eq_some heq with ⟨hb, -⟩ | ⟨t1, -, hf1⟩
    · exact hb
    · by_cases hlt : lt1 = lt2
      · rw [if_pos hlt] at hf1
        have hfa : fa1 ≠ fa2 := by
          rcases hdiff with h | h
          · exact absurd hlt h
          · exact h
        rcases andThen_eq_some hf1 with ⟨hb, -⟩ | ⟨t2, -, hf2⟩
        · exact hb
        · rcases andThen_eq_some hf2 with ⟨hb, -⟩ | ⟨t3, -, hf3⟩
          · exact hb
          · rw [if_neg (by rintro ⟨-, h⟩; exact hfa h)] at hf3
            simp only [Option.some.injEq, Prod.mk.injEq] at hf3
            exact hf3.1.symm
      · rw [if_neg hlt] at hf1
        simp only [Option.some.injEq, Prod.mk.injEq] at hf1
        exact hf1.1.symm

/-- Lifting `shallow_diff_false` through `TLField::recursive`: two fields
identical except for their lifetime-index lists or accessor kinds never
compare equal. -/
theorem field_diff_false (env : Env) (fuel : Nat) (name : StaticStr)
    (addr : Addr) (fn : List TLFunction) (isf : Bool)
    (lt1 lt2 : List LifetimeIndex) (fa1 fa2 : FieldAccessor)
    (s s2 : RecursionState) (b : Bool)
    (hdiff : lt1 ≠ lt2 ∨ fa1 ≠ fa2)
    (heq : eqRun env fuel
      (.field (.mk name lt1 addr fn isf fa1) (.mk name lt2 addr fn isf fa2))
      s = some (b, s2)) : b = false := by
  cases fuel with
  | zero => exact absurd heq (by simp [eqRun])
  | succ fuel =>
    simp only [eqRun, TLField.abi_info] at heq
    rw [TLFieldShallow.new_isSome] at heq
    simp only [TLFieldShallow.new, TLField.name, TLField.lifetime_indices,
      TLField.abi_info, TLField.functions, TLField.is_function,
      TLField.field_accessor] at heq
    split at heq
    case h_1 => exact Option.noConfusion heq
    case h_2 b1 s1 hsh =>
      simp only [Option.some.injEq, Prod.mk.injEq] at heq
      obtain ⟨hb, -⟩ := heq
      subst hb
      exact shallow_diff_false env fuel _ _ _ _ _ _ _ _ _ _ _ _ hdiff hsh

/-- Claim C1 (code bug): the reflexivity property — `check(D, D)`, realised
as equality of a `TypeLayout` with itself through the cycle-safe traversal,
reports COMPATIBLE for any constructed `D` — fails on the code: for the
cyclic descriptor `nodeLayout` of `nodeEnv` (`struct Node { next: &'static
Node }`, whose field targets the `&Node` descriptor whose generic parameters
carry the `Node` layout), the self-comparison never returns — no fuel budget
suffices — because a shallow (cycle-broken) field still deep-compares its
`full_type`, re-entering the same field with no progress.  This contradicts
the doc comment of `TLField::recursive` ("avoid infinite recursion in types
that reference themselves (even indirectly)"). -/
theorem c1_check_self_on_cyclic_descriptor_diverges :
    EqTerminates nodeEnv (.tl nodeLayout nodeLayout) = False := by
  apply eq_false
  rintro ⟨fuel, r, hr⟩
  rw [nodeSelfEq_none fuel] at hr
  exact Option.noConfusion hr

/-- Claim C2 (confirmed): a field whose target address is already in the
visited set is treated shallowly — both the equality comparison and the
Debug rendering proceed on shallow views whose `abi_info` is withheld
(`none`), so the target is not recursed into — and within a traversal
(visited-node counter nonzero, so no reset happens) the visited set only
grows, so the target stays marked for the rest of the outer traversal. -/
theorem c2_visited_field_shallow_and_marks_persist (env : Env) (fuel : Nat)
    (f1 f2 : TLField) (s : RecursionState)
    (hvis : s.visited.contains f1.abi_info = true)
    (hnodes : s.visited_nodes ≠ 0) :
    (TLFieldShallow.new env f1 false).abi_info = none ∧
    eqRun env (fuel + 1) (.field f1 f2) s =
      (match eqRun env fuel
          (.shallow (TLFieldShallow.new env f1 false)
            (TLFieldShallow.new env f2 false)) (bump s f1.abi_info) with
       | none => none
       | some (b, s2) => some (b, closeTraversal s s2)) ∧
    dbgRun env (fuel + 1) (.field f1) s =
      (match
          (if 2 ≤ s.recursion_depth then
            some ("<printing recursion limit>\n", bump s f1.abi_info)
           else dbgRun env fuel
             (.shallow (TLFieldShallow.new env f1 false))
             (bump s f1.abi_info)) with
       | none => none
       | some (out, s2) => some (out, closeTraversal s s2)) ∧
    (∀ b s2, eqRun env (fuel + 1) (.field f1 f2) s = some (b, s2) →
      s.visited ⊆ s2.visited ∧ f1.abi_info ∈ s2.visited) ∧
    (∀ out s2, dbgRun env (fuel + 1) (.field f1) s = some (out, s2) →
      s.visited ⊆ s2.visited ∧ f1.abi_info ∈ s2.visited) := by
  refine ⟨rfl, ?_, ?_, ?_, ?_⟩
  · simp only [eqRun, hvis, Bool.not_true, TLFieldShallow.new_isSome]
  · simp only [dbgRun, hvis, Bool.not_true]
  · intro b s2 heq
    have hmem : f1.abi_info ∈ s.visited := by simpa using hvis
    have h := eqRun_mono env (fuel + 1) _ s b s2 heq hnodes
    exact ⟨h.1, h.1 hmem⟩
  · intro out s2 heq
    have hmem : f1.abi_info ∈ s.visited := by simpa using hvis
    have h := dbgRun_mono env (fuel + 1) _ s out s2 heq hnodes
    exact ⟨h.1, h.1 hmem⟩

/-- Witness for C2 at a concrete input: the state `⟨1, 1, [0]⟩` has field
target `0` visited and a nonzero node counter; the shallow view withholds
`abi_info`, and the concrete run `some (true, ⟨1, 2, [0]⟩)` keeps the mark. -/
theorem c2_visited_field_shallow_and_marks_persist_witness :
    ((⟨1, 1, [0]⟩ : RecursionState).visited.contains
      (leafFieldWith [] .Direct).abi_info = true) ∧
    ((⟨1, 1, [0]⟩ : RecursionState).visited_nodes ≠ 0) ∧
    (TLFieldShallow.new leafEnv (leafFieldWith [] .Direct) false).abi_info
      = none ∧
    ((⟨1, 1, [0]⟩ : RecursionState).visited
        ⊆ (⟨1, 2, [0]⟩ : RecursionState).visited ∧
      (leafFieldWith [] .Direct).abi_info
        ∈ (⟨1, 2, [0]⟩ : RecursionState).visited) :=
  ⟨by decide, by decide,
    (c2_visited_field_shallow_and_marks_persist leafEnv 30
      (leafFieldWith [] .Direct) (leafFieldWith [] .Direct) ⟨1, 1, [0]⟩
      (by decide) (by decide)).1,
    (c2_visited_field_shallow_and_marks_persist leafEnv 30
      (leafFieldWith [] .Direct) (leafFieldWith [] .Direct) ⟨1, 1, [0]⟩
      (by decide) (by decide)).2.2.2.1 true ⟨1, 2, [0]⟩ (by decide)⟩

/-- Claim C3 (confirmed): when a top-level traversal call — `TLField`
equality or Debug rendering, entered with visited-node counter `0`, which is
what creates the `ResetRecursion` guard — returns, the traversal state is
fully reset to depth 0, node counter 0 and an empty visited set. -/
theorem c3_outermost_call_resets_state (env : Env) (fuel : Nat)
    (f1 f2 f : TLField) (s : RecursionState)
    (h0 : s.visited_nodes = 0) :
    (∀ b s2, eqRun env fuel (.field f1 f2) s = some (b, s2) →
      s2 = RecursionState.init) ∧
    (∀ out s2, dbgRun env fuel (.field f) s = some (out, s2) →
      s2 = RecursionState.init) := by
  constructor
  · intro b s2 heq
    cases fuel with
    | zero => exact absurd heq (by simp [eqRun])
    | succ fuel =>
      simp only [eqRun] at heq
      split at heq
      case h_1 => exact Option.noConfusion heq
      case h_2 b1 s1 hsh =>
        simp only [Option.some.injEq, Prod.mk.injEq] at heq
        rw [← heq.2]
        simp [closeTraversal, h0]
  · intro out s2 heq
    cases fuel with
    | zero => exact absurd heq (by simp [dbgRun])
    | succ fuel =>
      simp only [dbgRun] at heq
      split at heq
      case h_1 => exact Option.noConfusion heq
      case h_2 o1 s1 hsh =>
        simp only [Option.some.injEq, Prod.mk.injEq] at heq
        rw [← heq.2]
        simp [closeTraversal, h0]

/-- Witness for C3 at a concrete input: an entry state with nonzero depth
and a stale visited set but node counter 0 is reset to the initial state by
the completed call. -/
theorem c3_outermost_call_resets_state_witness :
    ((⟨5, 0, [7]⟩ : RecursionState).visited_nodes = 0) ∧
    (∀ b s2, eqRun leafEnv 31
      (.field (leafFieldWith [] .Direct) (leafFieldWith [] .Direct))
      ⟨5, 0, [7]⟩ = some (b, s2) → s2 = RecursionState.init) ∧
    eqRun leafEnv 31
      (.field (leafFieldWith [] .Direct) (leafFieldWith [] .Direct))
      ⟨5, 0, [7]⟩ = some (true, RecursionState.init) :=
  ⟨rfl,
    (c3_outermost_call_resets_state leafEnv 31 (leafFieldWith [] .Direct)
      (leafFieldWith [] .Direct) (leafFieldWith [] .Direct) ⟨5, 0, [7]⟩
      rfl).1,
    by decide⟩

/-- Claim C4 (code bug): termination on self-referential graphs fails for
the equality comparison: on the `Node`/`&'static Node` graph (a field whose
target transitively refers back through a reference type's generic
parameters), field equality never returns for any fuel budget, while Debug
rendering of the same field does terminate (its depth-2 cap truncates the
graph).  The claim's termination promise — and the doc comment of
`TLField::recursive` — is violated by the equality side. -/
theorem c4_cyclic_field_equality_diverges_debug_terminates :
    EqTerminates nodeEnv (.field nodeField nodeField) = False ∧
    DbgTerminates nodeEnv (.field nodeField) := by
  constructor
  · apply eq_false
    rintro ⟨fuel, r, hr⟩
    rw [nodeFieldEq_none fuel] at hr
    exact Option.noConfusion hr
  · have h : (dbgRun nodeEnv 200 (.field nodeField)
        RecursionState.init).isSome = true := by decide
    obtain ⟨r, hr⟩ := Option.isSome_iff_exists.mp h
    exact ⟨200, r, hr⟩

/-- Claim C5 (confirmed): whenever the recursion depth at entry has reached
2, Debug rendering of a field produces exactly the placeholder line
`<printing recursion limit>` (with the `writeln!` newline) instead of
expanding the field, regardless of the visited set — the cap is independent
of cycle detection; the state still undergoes the entry bump and the exit
bookkeeping. -/
theorem c5_debug_depth_cap_yields_placeholder (env : Env) (fuel : Nat)
    (f : TLField) (s : RecursionState) (h : 2 ≤ s.recursion_depth) :
    dbgRun env (fuel + 1) (.field f) s =
      some ("<printing recursion limit>\n",
        closeTraversal s (bump s f.abi_info)) := by
  simp only [dbgRun, if_pos h]

/-- Witness for C5 at a concrete input: at depth 2 the rendering is the
placeholder line and the state undergoes only the bookkeeping updates. -/
theorem c5_debug_depth_cap_yields_placeholder_witness :
    (2 ≤ (⟨2, 3, []⟩ : RecursionState).recursion_depth) ∧
    dbgRun leafEnv (10 + 1) (.field (leafFieldWith [] .Direct)) ⟨2, 3, []⟩ =
      some ("<printing recursion limit>\n",
        closeTraversal ⟨2, 3, []⟩
          (bump ⟨2, 3, []⟩ (leafFieldWith [] .Direct).abi_info)) :=
  ⟨by decide,
    c5_debug_depth_cap_yields_placeholder leafEnv 10
      (leafFieldWith [] .Direct) ⟨2, 3, []⟩ (by decide)⟩

/-- Claim C6 (confirmed): every public constructor of `TypeLayout` —
`from_params` and the std-lib constructors `from_std_lib` /
`from_std_lib_phantom` — takes size and alignment from the in-memory
representation of the type parameter `T` (`mem::size_of` / `mem::align_of`),
with no size/alignment field in `TypeLayoutParams`; and none of the fluent
setters (`set_phantom_fields`, `set_tag`, `set_reflection_tag`,
`set_mod_refl_mode`, `set_repr_attr`) changes size or alignment. -/
theorem c6_size_alignment_derived_not_hand_entered (T : RustTypeInfo)
    (p : TypeLayoutParams) (type_name : StaticStr)
    (prim : Option RustPrimitive) (data : TLData) (g : GenericParams)
    (phantom ph : List TLField) (t : TypeLayout) (tg rt : Tag)
    (m : ModReflMode) (r : ReprAttr) :
    (TypeLayout.from_params T p).size = T.size ∧
    (TypeLayout.from_params T p).alignment = T.alignment ∧
    (TypeLayout.from_std_lib T type_name data g).size = T.size ∧
    (TypeLayout.from_std_lib T type_name data g).alignment = T.alignment ∧
    (TypeLayout.from_std_lib_phantom T type_name prim data g phantom).size
      = T.size ∧
    (TypeLayout.from_std_lib_phantom T type_name prim data g
      phantom).alignment = T.alignment ∧
    (t.set_phantom_fields ph).size = t.size ∧
    (t.set_phantom_fields ph).alignment = t.alignment ∧
    (t.set_tag tg).size = t.size ∧
    (t.set_tag tg).alignment = t.alignment ∧
    (t.set_reflection_tag rt).size = t.size ∧
    (t.set_reflection_tag rt).alignment = t.alignment ∧
    (t.set_mod_refl_mode m).size = t.size ∧
    (t.set_mod_refl_mode m).alignment = t.alignment ∧
    (t.set_repr_attr r).size = t.size ∧
    (t.set_repr_attr r).alignment = t.alignment := by
  obtain ⟨n, pk, v, f, l, sz, al, d, ft, phf, rt1, tg1, m1, r1⟩ := t
  exact ⟨rfl, rfl, rfl, rfl, rfl, rfl, rfl, rfl, rfl, rfl, rfl, rfl, rfl,
    rfl, rfl, rfl⟩

/-- Counterexample for C7: two enum descriptors identical except that one
variant's discriminant is built via `from_i32` and the other via `from_i64`
with the same numeric value compare EQUAL (compatible, zero mismatches), not
INCOMPATIBLE as the claim states. -/
theorem c7_counterexample_i32_vs_i64_discriminants_equal :
    eqRun [] 64
      (.tl (enumLayoutWith (.from_i32 5)) (enumLayoutWith (.from_i64 5)))
      RecursionState.init = some (true, RecursionState.init) := by decide

/-- Claim C7 (corrected): `TLDiscriminant::from_i32` widens to the same
`Signed(i64)` representation as `from_i64`, so descriptors built from the
two constructors with the same numeric value are equal — the stored
discriminant does not record the 32- versus 64-bit source width, and the
comparison reports compatibility. -/
theorem c7_amended_from_i32_widens_to_from_i64 (n : Int) :
    TLDiscriminant.from_i32 n = TLDiscriminant.from_i64 n ∧
    enumLayoutWith (.from_i32 n) = enumLayoutWith (.from_i64 n) ∧
    eqRun [] 64
      (.tl (enumLayoutWith (.from_i32 7)) (enumLayoutWith (.from_i64 7)))
      RecursionState.init = some (true, RecursionState.init) :=
  ⟨rfl, rfl, by decide⟩

/-- Counterexample for C8: two fields differing only in their
lifetime-index lists (resp. only in their accessor kinds) compare UNEQUAL,
refuting the claim that these attributes are excluded from the
comparison. -/
theorem c8_counterexample_lifetimes_and_accessor_compared :
    eqRun leafEnv 64
      (.field (leafFieldWith [] .Direct) (leafFieldWith [.Static] .Direct))
      RecursionState.init = some (false, RecursionState.init) ∧
    eqRun leafEnv 64
      (.field (leafFieldWith [] .Direct) (leafFieldWith [] .Inaccessible))
      RecursionState.init = some (false, RecursionState.init) :=
  ⟨by decide, by decide⟩

/-- Claim C8 (corrected): the lifetime-index list and the accessor kind are
INCLUDED in the field comparison — `TLFieldShallow` carries both and its
derived `PartialEq` compares them — so two fields identical except in
`lifetime_indices` or `field_accessor` never compare equal. -/
theorem c8_amended_lifetimes_and_accessor_included (env : Env) (fuel : Nat)
    (name : StaticStr) (addr : Addr) (fn : List TLFunction) (isf : Bool)
    (lt1 lt2 : List LifetimeIndex) (fa1 fa2 : FieldAccessor)
    (s s2 : RecursionState) (b : Bool)
    (hdiff : lt1 ≠ lt2 ∨ fa1 ≠ fa2)
    (heq : eqRun env fuel
      (.field (.mk name lt1 addr fn isf fa1) (.mk name lt2 addr fn isf fa2))
      s = some (b, s2)) : b = false :=
  field_diff_false env fuel name addr fn isf lt1 lt2 fa1 fa2 s s2 b hdiff heq

/-- Witness for C8 at a concrete input: fields differing only in their
lifetime-index lists yield result `false`. -/
theorem c8_amended_lifetimes_and_accessor_included_witness :
    (([] : List LifetimeIndex) ≠ [.Static] ∨
      FieldAccessor.Direct ≠ FieldAccessor.Direct) ∧ false = false :=
  ⟨Or.inl (by decide),
    c8_amended_lifetimes_and_accessor_included leafEnv 64 "x" 0 [] false
      [] [.Static] .Direct .Direct RecursionState.init RecursionState.init
      false (Or.inl (by decide)) (by decide)⟩

/-- Counterexample for C9: two descriptors identical except for the NAMES
in their same-length generic lifetime lists compare UNEQUAL, refuting the
claim that lifetime-name lists are compared by count only. -/
theorem c9_counterexample_lifetime_names_compared :
    eqRun [] 64
      (.tl (lifetimesLayout ["a"]) (lifetimesLayout ["b"]))
      RecursionState.init = some (false, RecursionState.init) ∧
    (["a"] : List StaticStr).length = (["b"] : List StaticStr).length :=
  ⟨by decide, rfl⟩

/-- Claim C9 (corrected): the generic lifetime-name lists are compared by
content (the derived `PartialEq` of `GenericParams` compares the
`lifetime` slice element-wise), not by count only: descriptors whose
lifetime lists differ — same length or not — never compare equal. -/
theorem c9_amended_lifetime_names_compared_by_content
    (l1 l2 : List StaticStr) (fuel : Nat) (s s2 : RecursionState) (b : Bool)
    (h : l1 ≠ l2)
    (heq : eqRun [] (fuel + 3)
      (.tl (lifetimesLayout l1) (lifetimesLayout l2)) s = some (b, s2)) :
    b = false := by
  simp only [lifetimesLayout, eqRun, CmpIgnored.ceq, eq_self_iff_true,
    and_self, and_true, true_and, if_true, andThen, if_neg h,
    Option.some.injEq, Prod.mk.injEq] at heq
  exact heq.1.symm

/-- Witness for C9 at a concrete input: same-length lifetime lists with
different names give result `false`. -/
theorem c9_amended_lifetime_names_compared_by_content_witness :
    ((["a"] : List StaticStr) ≠ ["b"]) ∧ false = false :=
  ⟨by decide,
    c9_amended_lifetime_names_compared_by_content ["a"] ["b"] 61
      RecursionState.init RecursionState.init false (by decide) (by decide)⟩

/-- Claim C10 (confirmed): the source-location fields (`file` and `line`,
wrapped in `CmpIgnored`) are excluded from equality: comparing two layouts
that differ only in source location is the same computation as the
self-comparison, it never reports a mismatch, and a concrete instance
reports equality. -/
theorem c10_source_location_excluded_from_equality (env : Env) (fuel : Nat)
    (t : TypeLayout) (file1 file2 : StaticStr) (line1 line2 : Nat)
    (s : RecursionState) :
    eqRun env fuel
      (.tl (t.withSource file1 line1) (t.withSource file2 line2)) s
      = eqRun env fuel (.tl t t) s ∧
    okRes (eqRun env fuel
      (.tl (t.withSource file1 line1) (t.withSource file2 line2)) s) ∧
    eqRun selfEnv 64
      (.tl (fooLayout.withSource "a.rs" 3) (fooLayout.withSource "b.rs" 9))
      RecursionState.init = some (true, RecursionState.init) := by
  obtain ⟨n, p, v, f, l, sz, al, d, ft, ph, rt, tg, m, r⟩ := t
  have h1 : eqRun env fuel
      (.tl ((TypeLayout.mk n p v f l sz al d ft ph rt tg m r).withSource
        file1 line1)
       ((TypeLayout.mk n p v f l sz al d ft ph rt tg m r).withSource
        file2 line2)) s
      = eqRun env fuel
        (.tl (.mk n p v f l sz al d ft ph rt tg m r)
          (.mk n p v f l sz al d ft ph rt tg m r)) s := by
    cases fuel with
    | zero => rfl
    | succ fuel => simp only [TypeLayout.withSource, eqRun, CmpIgnored.ceq]
  refine ⟨h1, ?_, by decide⟩
  rw [h1]
  exact eqRun_diag env fuel (.tl _ _) s rfl
